import Mathlib

set_option linter.unusedVariables false

/-! Verification of the datetimeparse-capi library.

The repository ships the public header `datetimeparse.h` (declaring the output
record `pdt_precise_local_date_time`, the error codes `PDT_SUCCESS`,
`PDT_PARSE_ERROR`, `PDT_MALFORMED_STR`, and the entry point
`pdt_parse_rfc3339_datetime`) together with an example caller.  The body of the
parsing routine itself is not among the shipped sources, so it is modelled
from the specification document, section by section, below.  Inputs are byte
sequences, modelled as lists of natural numbers together with an explicit
declared length. -/

/-- Error kinds of the parser: structural failure (PDT_PARSE_ERROR) versus
semantic failure (PDT_MALFORMED_STR). -/
inductive PdtErr where
  | parseError : PdtErr
  | malformedStr : PdtErr
deriving DecidableEq, Repr

/-- The output record `struct pdt_precise_local_date_time` with its seven
signed integer fields, as declared in `include/datetimeparse.h`. -/
structure pdt_precise_local_date_time where
  year : Int
  month : Int
  day : Int
  hour : Int
  minute : Int
  second : Int
  millisecond : Int
deriving DecidableEq, Repr

/-- Return code for success, from `include/datetimeparse.h`. -/
def PDT_SUCCESS : Nat := 0

/-- Return code for a structural parse failure, from `include/datetimeparse.h`. -/
def PDT_PARSE_ERROR : Nat := 1

/-- Return code for a semantic (out-of-range) failure, from
`include/datetimeparse.h`. -/
def PDT_MALFORMED_STR : Nat := 2

/-- ASCII digit test for a byte (codes 48 through 57). -/
def isDigitB (b : Nat) : Bool := 48 ≤ b && b ≤ 57

/-- Modelled from the spec: the fixed-width digit-group scan of the missing
parser body ("every digit group is parsed as an unsigned base-10 integer with
a fixed expected width; any non-digit byte in a digit position is a
parse-error").  Consumes `w` bytes from the remaining input, accumulating the
value; premature end of input is a structural parse-error. -/
def readDigitsL : Nat → Nat → List Nat → Except PdtErr (Nat × List Nat)
  | 0, acc, s => .ok (acc, s)
  | _ + 1, _, [] => .error .parseError
  | w + 1, acc, b :: s =>
      if isDigitB b then readDigitsL w (acc * 10 + (b - 48)) s
      else .error .parseError

/-- Modelled from the spec: the literal-separator check of the missing parser
body (a missing `-` or `:` literal at its expected position is a structural
parse-error, as is premature end of input). -/
def expectL (c : Nat) : List Nat → Except PdtErr (List Nat)
  | [] => .error .parseError
  | b :: s => if b = c then .ok s else .error .parseError

/-- Modelled from the spec: step 6 of the grammar, "exactly one arbitrary
separator byte ... consumed and discarded, not validated against a fixed
set"; only premature end of input fails. -/
def anyByteL : List Nat → Except PdtErr (List Nat)
  | [] => .error .parseError
  | _ :: s => .ok s

/-- Modelled from the spec: the Gregorian leap-year rule, "divisible by 4,
except centuries not divisible by 400". -/
def isLeapYear (y : Nat) : Bool := y % 4 == 0 && (y % 100 != 0 || y % 400 == 0)

/-- Modelled from the spec: the month length used by day validation,
"01-(28/29/30/31) depending on month and on Gregorian leap-year rule". -/
def daysInMonth (y m : Nat) : Nat :=
  if m = 2 then (if isLeapYear y then 29 else 28)
  else if m = 4 ∨ m = 6 ∨ m = 9 ∨ m = 11 then 30
  else 31

/-- Modelled from the spec: millisecond extraction from a fractional digit
run (bytes of ASCII digits): "truncate (not round) to three digits ...; pad
short runs with trailing zeros conceptually before truncating". -/
def msOfRun (run : List Nat) : Nat :=
  ((run.take 3).foldl (fun a b => a * 10 + (b - 48)) 0) *
    10 ^ (3 - (run.take 3).length)

/-- Modelled from the spec: step 12, the optional fractional-second suffix.
If the next byte is `.` it must be followed by one or more ASCII digits
(a zero-length run is a malformed-string error); the maximal digit run is
consumed and truncated to milliseconds.  If the next byte is not `.` (or the
input has ended) the suffix is absent and the millisecond field is 0. -/
def fracL (s : List Nat) : Except PdtErr (Nat × List Nat) :=
  match s with
  | [] => .ok (0, [])
  | b :: s1 =>
    if b = 46 then
      if s1.takeWhile isDigitB = [] then .error .malformedStr
      else .ok (msOfRun (s1.takeWhile isDigitB), s1.dropWhile isDigitB)
    else .ok (0, b :: s1)

/-- Modelled from the spec: the signed-offset tail of step 13, `HH:MM` after
a `+` or `-` sign, "2 digits, `:`, 2 digits, range-checked the same as
hour/minute". -/
def offsetL (s : List Nat) : Except PdtErr (Bool × List Nat) :=
  match readDigitsL 2 0 s with
  | .error e => .error e
  | .ok (oh, s1) =>
  if 23 < oh then .error .malformedStr else
  match expectL 58 s1 with
  | .error e => .error e
  | .ok s2 =>
  match readDigitsL 2 0 s2 with
  | .error e => .error e
  | .ok (om, s3) =>
  if 59 < om then .error .malformedStr else
  .ok (true, s3)

/-- Modelled from the spec: step 13, the optional timezone designator, either
the literal `Z` or a signed offset; it is validated and discarded.  Any other
next byte (or end of input) means the designator is absent; step 14 tolerates
such remaining bytes.  The Bool records whether a designator was consumed. -/
def tzL (s : List Nat) : Except PdtErr (Bool × List Nat) :=
  match s with
  | [] => .ok (false, [])
  | b :: s1 =>
    if b = 90 then .ok (true, s1)
    else if b = 43 ∨ b = 45 then offsetL s1
    else .ok (false, b :: s1)

/-- Modelled from the spec: grammar steps 1-5, the date part
(4-digit year, `-`, month 01-12, `-`, day validated against the month
length under the leap-year rule). -/
def stepDate (s : List Nat) : Except PdtErr (Nat × Nat × Nat × List Nat) :=
  match readDigitsL 4 0 s with
  | .error e => .error e
  | .ok (y, s1) =>
  match expectL 45 s1 with
  | .error e => .error e
  | .ok s2 =>
  match readDigitsL 2 0 s2 with
  | .error e => .error e
  | .ok (mo, s3) =>
  if mo = 0 ∨ 12 < mo then .error .malformedStr else
  match expectL 45 s3 with
  | .error e => .error e
  | .ok s4 =>
  match readDigitsL 2 0 s4 with
  | .error e => .error e
  | .ok (d, s5) =>
  if d = 0 ∨ daysInMonth y mo < d then .error .malformedStr else
  .ok (y, mo, d, s5)

/-- Modelled from the spec: grammar steps 6-11, the time part (one arbitrary
separator byte, hour 00-23, `:`, minute 00-59, `:`, second 00-60 with the
leap-second tolerance). -/
def stepTime (s : List Nat) : Except PdtErr (Nat × Nat × Nat × List Nat) :=
  match anyByteL s with
  | .error e => .error e
  | .ok s1 =>
  match readDigitsL 2 0 s1 with
  | .error e => .error e
  | .ok (h, s2) =>
  if 23 < h then .error .malformedStr else
  match expectL 58 s2 with
  | .error e => .error e
  | .ok s3 =>
  match readDigitsL 2 0 s3 with
  | .error e => .error e
  | .ok (mi, s4) =>
  if 59 < mi then .error .malformedStr else
  match expectL 58 s4 with
  | .error e => .error e
  | .ok s5 =>
  match readDigitsL 2 0 s5 with
  | .error e => .error e
  | .ok (sec, s6) =>
  if 60 < sec then .error .malformedStr else
  .ok (h, mi, sec, s6)

/-- Modelled from the spec: the full single-pass grammar walk of the missing
parser body, over the effective input (the first `inp_len` bytes).  On
success it also reports whether a timezone designator was consumed and the
remaining (tolerated) bytes. -/
def pdt_core (s : List Nat) :
    Except PdtErr (pdt_precise_local_date_time × Bool × List Nat) :=
  match stepDate s with
  | .error e => .error e
  | .ok (y, mo, d, s1) =>
  match stepTime s1 with
  | .error e => .error e
  | .ok (h, mi, sec, s2) =>
  match fracL s2 with
  | .error e => .error e
  | .ok (ms, s3) =>
  match tzL s3 with
  | .error e => .error e
  | .ok (tzp, s4) =>
  .ok (⟨(y : Int), (mo : Int), (d : Int), (h : Int), (mi : Int), (sec : Int),
        (ms : Int)⟩, tzp, s4)

/-- Modelled from the spec: the missing body of `pdt_parse_rfc3339_datetime`
(declared in `include/datetimeparse.h` and exercised by
`example/parse_basic.c`).  The declared length is authoritative: the walk
sees exactly the first `inp_len` bytes.  The C out-parameter convention is
modelled by returning the error code together with the record on success. -/
def pdt_parse_rfc3339_datetime (inp : List Nat) (inp_len : Nat) :
    Nat × Option pdt_precise_local_date_time :=
  match pdt_core (inp.take inp_len) with
  | .ok (dt, _, _) => (PDT_SUCCESS, some dt)
  | .error .parseError => (PDT_PARSE_ERROR, none)
  | .error .malformedStr => (PDT_MALFORMED_STR, none)

/-! Shape descriptions of RFC3339-like inputs, used to state the claims that
quantify over all well-shaped inputs. -/

/-- A timezone designator shape: absent, the literal `Z`, or a signed offset
with its sign flag (true for `+`) and hour and minute values. -/
inductive TZ where
  | absent : TZ
  | zulu : TZ
  | offset : Bool → Nat → Nat → TZ
deriving DecidableEq, Repr

/-- The two decimal digits of a two-digit group, most significant first. -/
def digitsOf2 (n : Nat) : List Nat := [n / 10, n % 10]

/-- The four decimal digits of a four-digit group, most significant first. -/
def digitsOf4 (n : Nat) : List Nat :=
  [n / 1000, n / 100 % 10, n / 10 % 10, n % 10]

/-- ASCII rendering of a two-digit group. -/
def digits2 (n : Nat) : List Nat := (digitsOf2 n).map (fun d => 48 + d)

/-- ASCII rendering of a four-digit group. -/
def digits4 (n : Nat) : List Nat := (digitsOf4 n).map (fun d => 48 + d)

/-- ASCII rendering of the optional fractional-second suffix from its digit
values: nothing, or `.` followed by the digit run. -/
def fracBytes : Option (List Nat) → List Nat
  | none => []
  | some ds => 46 :: ds.map (fun d => 48 + d)

/-- ASCII rendering of a timezone designator shape. -/
def tzBytes : TZ → List Nat
  | .absent => []
  | .zulu => [90]
  | .offset sgn oh om => (if sgn then 43 else 45) :: (digits2 oh ++ 58 :: digits2 om)

/-- The 19 mandatory bytes of a well-shaped input: year, `-`, month, `-`,
day, separator byte, hour, `:`, minute, `:`, second. -/
def render19 (y mo d sep h mi sec : Nat) : List Nat :=
  digits4 y ++ 45 :: (digits2 mo ++ 45 ::
    (digits2 d ++ sep :: (digits2 h ++ 58 :: (digits2 mi ++ 58 :: digits2 sec))))

/-- A full well-shaped input: the 19 mandatory bytes followed by the optional
fraction and the optional timezone designator. -/
def render (y mo d sep h mi sec : Nat) (frac : Option (List Nat)) (tz : TZ) :
    List Nat :=
  render19 y mo d sep h mi sec ++ (fracBytes frac ++ tzBytes tz)

/-- The millisecond value the spec assigns to an optional fractional digit
run: absent gives 0; otherwise the first three digits of the run, padded
with trailing zeros when the run is shorter than three digits. -/
def msSpec : Option (List Nat) → Nat
  | none => 0
  | some ds =>
      ((ds.take 3).foldl (fun a d => a * 10 + d) 0) * 10 ^ (3 - (ds.take 3).length)

/-- Whether a timezone designator shape is out of range (offset hour above 23
or offset minute above 59). -/
def tzBadB : TZ → Bool
  | .offset _ oh om => decide (23 < oh) || decide (59 < om)
  | _ => false

/-- Whether a timezone designator shape is present at all. -/
def tzIsPresent : TZ → Bool
  | .absent => false
  | _ => true

/-! Evaluation lemmas: how the grammar walk behaves on well-shaped inputs. -/

theorem isDigitB_true {x : Nat} (h : x ≤ 9) : isDigitB (48 + x) = true := by
  simp only [isDigitB, Bool.and_eq_true, decide_eq_true_eq]
  omega

theorem readDigitsL_digits (ds : List Nat) (acc : Nat) (r : List Nat)
    (h : ∀ x ∈ ds, x ≤ 9) :
    readDigitsL ds.length acc (ds.map (fun d => 48 + d) ++ r) =
      .ok (ds.foldl (fun a d => a * 10 + d) acc, r) := by
  induction ds generalizing acc with
  | nil => rfl
  | cons d ds ih =>
      have hd : isDigitB (48 + d) = true :=
        isDigitB_true (h d (List.mem_cons_self d ds))
      simp only [List.map_cons, List.cons_append, List.length_cons, readDigitsL]
      rw [if_pos hd, show 48 + d - 48 = d from by omega]
      exact ih (acc * 10 + d) (fun x hx => h x (List.mem_cons_of_mem d hx))

theorem readDigits2_eval (n : Nat) (r : List Nat) (h : n ≤ 99) :
    readDigitsL 2 0 (digits2 n ++ r) = .ok (n, r) := by
  have h9 : ∀ x ∈ digitsOf2 n, x ≤ 9 := by
    intro x hx
    simp only [digitsOf2, List.mem_cons, List.not_mem_nil, or_false] at hx
    rcases hx with h1 | h1 <;> omega
  have h2 := readDigitsL_digits (digitsOf2 n) 0 r h9
  simp only [digitsOf2, List.length_cons, List.length_nil, List.foldl_cons,
    List.foldl_nil] at h2
  rw [digits2]
  rw [show (0 * 10 + n / 10) * 10 + n % 10 = n from by omega] at h2
  exact h2

theorem readDigits4_eval (n : Nat) (r : List Nat) (h : n ≤ 9999) :
    readDigitsL 4 0 (digits4 n ++ r) = .ok (n, r) := by
  have h9 : ∀ x ∈ digitsOf4 n, x ≤ 9 := by
    intro x hx
    simp only [digitsOf4, List.mem_cons, List.not_mem_nil, or_false] at hx
    rcases hx with h1 | h1 | h1 | h1 <;> omega
  have h2 := readDigitsL_digits (digitsOf4 n) 0 r h9
  simp only [digitsOf4, List.length_cons, List.length_nil, List.foldl_cons,
    List.foldl_nil] at h2
  rw [digits4]
  rw [show (((0 * 10 + n / 1000) * 10 + n / 100 % 10) * 10 + n / 10 % 10) * 10
      + n % 10 = n from by omega] at h2
  exact h2

theorem expectL_cons (c : Nat) (r : List Nat) : expectL c (c :: r) = .ok r := by
  simp [expectL]

theorem anyByteL_cons (b : Nat) (r : List Nat) : anyByteL (b :: r) = .ok r := rfl

theorem stepDate_badMonth (y mo d : Nat) (r : List Nat)
    (hy : y ≤ 9999) (hmo : mo ≤ 99)
    (hbad : mo = 0 ∨ 12 < mo) :
    stepDate (digits4 y ++ 45 :: (digits2 mo ++ 45 :: (digits2 d ++ r))) =
      .error .malformedStr := by
  simp only [stepDate, readDigits4_eval y _ hy, expectL_cons,
    readDigits2_eval mo _ hmo]
  rw [if_pos hbad]

theorem stepDate_badDay (y mo d : Nat) (r : List Nat)
    (hy : y ≤ 9999) (hmo : mo ≤ 99) (hd : d ≤ 99)
    (hmo2 : ¬(mo = 0 ∨ 12 < mo))
    (hbad : d = 0 ∨ daysInMonth y mo < d) :
    stepDate (digits4 y ++ 45 :: (digits2 mo ++ 45 :: (digits2 d ++ r))) =
      .error .malformedStr := by
  simp only [stepDate, readDigits4_eval y _ hy, expectL_cons,
    readDigits2_eval mo _ hmo, readDigits2_eval d _ hd]
  rw [if_neg hmo2, if_pos hbad]

theorem stepDate_ok (y mo d : Nat) (r : List Nat)
    (hy : y ≤ 9999) (hmo : mo ≤ 99) (hd : d ≤ 99)
    (hmo2 : ¬(mo = 0 ∨ 12 < mo))
    (hd2 : ¬(d = 0 ∨ daysInMonth y mo < d)) :
    stepDate (digits4 y ++ 45 :: (digits2 mo ++ 45 :: (digits2 d ++ r))) =
      .ok (y, mo, d, r) := by
  simp only [stepDate, readDigits4_eval y _ hy, expectL_cons,
    readDigits2_eval mo _ hmo, readDigits2_eval d _ hd]
  rw [if_neg hmo2, if_neg hd2]

theorem stepTime_badHour (sep h mi sec : Nat) (r : List Nat)
    (hh : h ≤ 99) (hbad : 23 < h) :
    stepTime (sep :: (digits2 h ++ 58 :: (digits2 mi ++ 58 :: (digits2 sec ++ r)))) =
      .error .malformedStr := by
  simp only [stepTime, anyByteL_cons, readDigits2_eval h _ hh]
  rw [if_pos hbad]

theorem stepTime_badMin (sep h mi sec : Nat) (r : List Nat)
    (hh : h ≤ 99) (hmi : mi ≤ 99) (hh2 : ¬23 < h) (hbad : 59 < mi) :
    stepTime (sep :: (digits2 h ++ 58 :: (digits2 mi ++ 58 :: (digits2 sec ++ r)))) =
      .error .malformedStr := by
  simp only [stepTime, anyByteL_cons, readDigits2_eval h _ hh, expectL_cons,
    readDigits2_eval mi _ hmi]
  rw [if_neg hh2, if_pos hbad]

theorem stepTime_badSec (sep h mi sec : Nat) (r : List Nat)
    (hh : h ≤ 99) (hmi : mi ≤ 99) (hsec : sec ≤ 99)
    (hh2 : ¬23 < h) (hmi2 : ¬59 < mi) (hbad : 60 < sec) :
    stepTime (sep :: (digits2 h ++ 58 :: (digits2 mi ++ 58 :: (digits2 sec ++ r)))) =
      .error .malformedStr := by
  simp only [stepTime, anyByteL_cons, readDigits2_eval h _ hh, expectL_cons,
    readDigits2_eval mi _ hmi, readDigits2_eval sec _ hsec]
  rw [if_neg hh2, if_neg hmi2, if_pos hbad]

theorem stepTime_ok (sep h mi sec : Nat) (r : List Nat)
    (hh : h ≤ 99) (hmi : mi ≤ 99) (hsec : sec ≤ 99)
    (hh2 : ¬23 < h) (hmi2 : ¬59 < mi) (hsec2 : ¬60 < sec) :
    stepTime (sep :: (digits2 h ++ 58 :: (digits2 mi ++ 58 :: (digits2 sec ++ r)))) =
      .ok (h, mi, sec, r) := by
  simp only [stepTime, anyByteL_cons, readDigits2_eval h _ hh, expectL_cons,
    readDigits2_eval mi _ hmi, readDigits2_eval sec _ hsec]
  rw [if_neg hh2, if_neg hmi2, if_neg hsec2]

theorem takeWhile_append_all {p : Nat → Bool} (as bs : List Nat)
    (h : ∀ a ∈ as, p a = true) :
    ((as ++ bs).takeWhile p = as ++ bs.takeWhile p) ∧
      ((as ++ bs).dropWhile p = bs.dropWhile p) := by
  induction as with
  | nil => simp
  | cons a as ih =>
      have ha : p a = true := h a (List.mem_cons_self a as)
      have hrec := ih (fun x hx => h x (List.mem_cons_of_mem a hx))
      simp [List.takeWhile_cons, List.dropWhile_cons, ha, hrec.1, hrec.2]

theorem takeWhile_nil_of_head {p : Nat → Bool} (bs : List Nat)
    (h : ∀ c, bs.head? = some c → p c = false) :
    bs.takeWhile p = [] ∧ bs.dropWhile p = bs := by
  cases bs with
  | nil => simp
  | cons b bs =>
      have hb : p b = false := h b rfl
      simp [List.takeWhile_cons, List.dropWhile_cons, hb]

theorem msOfRun_map (ds : List Nat) :
    msOfRun (ds.map (fun d => 48 + d)) = msSpec (some ds) := by
  simp [msOfRun, msSpec, ← List.map_take, List.foldl_map, Nat.add_sub_cancel_left]

theorem fracL_eval_none (r : List Nat)
    (hr : ∀ c, r.head? = some c → c ≠ 46) :
    fracL (fracBytes none ++ r) = .ok (0, r) := by
  cases r with
  | nil => rfl
  | cons b r1 =>
      have hb : b ≠ 46 := hr b rfl
      simp [fracBytes, fracL, hb]

theorem fracL_eval_some (ds : List Nat) (r : List Nat)
    (hds : ∀ x ∈ ds, x ≤ 9)
    (hr : ∀ c, r.head? = some c → isDigitB c = false) :
    fracL (fracBytes (some ds) ++ r) =
      if ds = [] then .error .malformedStr else .ok (msSpec (some ds), r) := by
  have hall : ∀ a ∈ ds.map (fun d => 48 + d), isDigitB a = true := by
    intro a ha
    rcases List.mem_map.mp ha with ⟨x, hx, rfl⟩
    exact isDigitB_true (hds x hx)
  have h1 := takeWhile_append_all (p := isDigitB) (ds.map (fun d => 48 + d)) r hall
  have h2 := takeWhile_nil_of_head (p := isDigitB) r hr
  have htw : (ds.map (fun d => 48 + d) ++ r).takeWhile isDigitB =
      ds.map (fun d => 48 + d) := by
    rw [h1.1, h2.1, List.append_nil]
  have hdw : (ds.map (fun d => 48 + d) ++ r).dropWhile isDigitB = r := by
    rw [h1.2, h2.2]
  simp only [fracBytes, List.cons_append, fracL, htw, hdw]
  by_cases hds0 : ds = []
  · subst hds0; simp
  · have hmap : ds.map (fun d => 48 + d) ≠ [] := by simpa using hds0
    simp [hds0, hmap, msOfRun_map]

theorem tzL_eval (tz : TZ)
    (hoff : ∀ sgn oh om, tz = .offset sgn oh om → oh ≤ 99 ∧ om ≤ 99) :
    tzL (tzBytes tz) =
      if tzBadB tz then .error .malformedStr
      else .ok (tzIsPresent tz, []) := by
  cases tz with
  | absent => rfl
  | zulu => rfl
  | offset sgn oh om =>
      obtain ⟨hoh, hom⟩ := hoff sgn oh om rfl
      have hsgn : ((if sgn then 43 else 45) : Nat) ≠ 90 := by
        cases sgn <;> simp
      have hsgn2 : ((if sgn then 43 else 45) : Nat) = 43 ∨
          ((if sgn then 43 else 45) : Nat) = 45 := by
        cases sgn <;> simp
      have hom2 : readDigitsL 2 0 (digits2 om) = .ok (om, []) := by
        have := readDigits2_eval om [] hom
        rwa [List.append_nil] at this
      simp only [tzBytes, tzL, if_neg hsgn, if_pos hsgn2, offsetL,
        readDigits2_eval oh _ hoh]
      by_cases h1 : 23 < oh
      · rw [if_pos h1]
        simp [tzBadB, h1]
      · rw [if_neg h1]
        simp only [expectL_cons, hom2]
        by_cases h2 : 59 < om
        · rw [if_pos h2]
          simp [tzBadB, h1, h2]
        · rw [if_neg h2]
          simp [tzBadB, tzIsPresent, h1, h2]

theorem tzHead_not46 (tz : TZ) (c : Nat) (hc : (tzBytes tz).head? = some c) :
    c ≠ 46 := by
  cases tz with
  | absent => simp [tzBytes] at hc
  | zulu => simp [tzBytes] at hc; omega
  | offset sgn oh om =>
      simp [tzBytes] at hc
      cases sgn <;> simp_all <;> omega

theorem tzHead_notDigit (tz : TZ) (c : Nat) (hc : (tzBytes tz).head? = some c) :
    isDigitB c = false := by
  cases tz with
  | absent => simp [tzBytes] at hc
  | zulu => simp [tzBytes] at hc; subst hc; rfl
  | offset sgn oh om =>
      simp [tzBytes] at hc
      cases sgn <;> simp_all [isDigitB] <;> omega

theorem render_assoc (y mo d sep h mi sec : Nat) (frac : Option (List Nat))
    (tz : TZ) :
    render y mo d sep h mi sec frac tz =
      digits4 y ++ 45 :: (digits2 mo ++ 45 :: (digits2 d ++ sep ::
        (digits2 h ++ 58 :: (digits2 mi ++ 58 ::
          (digits2 sec ++ (fracBytes frac ++ tzBytes tz)))))) := by
  simp [render, render19, List.append_assoc, List.cons_append]

theorem pdt_core_render (y mo d sep h mi sec : Nat) (frac : Option (List Nat))
    (tz : TZ)
    (hy : y ≤ 9999) (hmo : mo ≤ 99) (hd : d ≤ 99)
    (hh : h ≤ 99) (hmi : mi ≤ 99) (hsec : sec ≤ 99)
    (hfrac : ∀ ds, frac = some ds → ∀ x ∈ ds, x ≤ 9)
    (hoff : ∀ sgn oh om, tz = .offset sgn oh om → oh ≤ 99 ∧ om ≤ 99) :
    pdt_core (render y mo d sep h mi sec frac tz) =
      if mo = 0 ∨ 12 < mo then .error .malformedStr
      else if d = 0 ∨ daysInMonth y mo < d then .error .malformedStr
      else if 23 < h then .error .malformedStr
      else if 59 < mi then .error .malformedStr
      else if 60 < sec then .error .malformedStr
      else if frac = some [] then .error .malformedStr
      else if tzBadB tz then .error .malformedStr
      else .ok (⟨(y : Int), (mo : Int), (d : Int), (h : Int), (mi : Int),
        (sec : Int), (msSpec frac : Int)⟩, tzIsPresent tz, []) := by
  rw [render_assoc]
  by_cases hmo1 : mo = 0 ∨ 12 < mo
  · rw [if_pos hmo1]
    simp only [pdt_core, stepDate_badMonth y mo d _ hy hmo hmo1]
  · rw [if_neg hmo1]
    by_cases hd1 : d = 0 ∨ daysInMonth y mo < d
    · rw [if_pos hd1]
      simp only [pdt_core, stepDate_badDay y mo d _ hy hmo hd hmo1 hd1]
    · rw [if_neg hd1]
      by_cases hh1 : 23 < h
      · rw [if_pos hh1]
        simp only [pdt_core, stepDate_ok y mo d _ hy hmo hd hmo1 hd1,
          stepTime_badHour sep h mi sec _ hh hh1]
      · rw [if_neg hh1]
        by_cases hmi1 : 59 < mi
        · rw [if_pos hmi1]
          simp only [pdt_core, stepDate_ok y mo d _ hy hmo hd hmo1 hd1,
            stepTime_badMin sep h mi sec _ hh hmi hh1 hmi1]
        · rw [if_neg hmi1]
          by_cases hsec1 : 60 < sec
          · rw [if_pos hsec1]
            simp only [pdt_core, stepDate_ok y mo d _ hy hmo hd hmo1 hd1,
              stepTime_badSec sep h mi sec _ hh hmi hsec hh1 hmi1 hsec1]
          · rw [if_neg hsec1]
            cases frac with
            | none =>
                rw [if_neg (by simp)]
                simp only [pdt_core, stepDate_ok y mo d _ hy hmo hd hmo1 hd1,
                  stepTime_ok sep h mi sec _ hh hmi hsec hh1 hmi1 hsec1,
                  fracL_eval_none (tzBytes tz) (tzHead_not46 tz),
                  tzL_eval tz hoff]
                by_cases htz : tzBadB tz = true
                · rw [if_pos htz, if_pos htz]
                · rw [if_neg htz, if_neg htz]
                  simp [msSpec]
            | some ds =>
                by_cases hds0 : ds = []
                · subst hds0
                  rw [if_pos rfl]
                  have heval0 := fracL_eval_some [] (tzBytes tz) (by simp)
                    (tzHead_notDigit tz)
                  rw [if_pos rfl] at heval0
                  simp only [pdt_core, stepDate_ok y mo d _ hy hmo hd hmo1 hd1,
                    stepTime_ok sep h mi sec _ hh hmi hsec hh1 hmi1 hsec1,
                    heval0]
                · rw [if_neg (by simpa using hds0)]
                  have heval := fracL_eval_some ds (tzBytes tz) (hfrac ds rfl)
                    (tzHead_notDigit tz)
                  rw [if_neg hds0] at heval
                  simp only [pdt_core, stepDate_ok y mo d _ hy hmo hd hmo1 hd1,
                    stepTime_ok sep h mi sec _ hh hmi hsec hh1 hmi1 hsec1,
                    heval, tzL_eval tz hoff]
                  by_cases htz : tzBadB tz = true
                  · rw [if_pos htz, if_pos htz]
                  · rw [if_neg htz, if_neg htz]

theorem pdt_parse_render (y mo d sep h mi sec : Nat) (frac : Option (List Nat))
    (tz : TZ)
    (hy : y ≤ 9999) (hmo : mo ≤ 99) (hd : d ≤ 99)
    (hh : h ≤ 99) (hmi : mi ≤ 99) (hsec : sec ≤ 99)
    (hfrac : ∀ ds, frac = some ds → ∀ x ∈ ds, x ≤ 9)
    (hoff : ∀ sgn oh om, tz = .offset sgn oh om → oh ≤ 99 ∧ om ≤ 99) :
    pdt_parse_rfc3339_datetime (render y mo d sep h mi sec frac tz)
        (render y mo d sep h mi sec frac tz).length =
      if (mo = 0 ∨ 12 < mo) ∨ (d = 0 ∨ daysInMonth y mo < d) ∨ 23 < h ∨ 59 < mi
          ∨ 60 < sec ∨ frac = some [] ∨ tzBadB tz
      then (PDT_MALFORMED_STR, none)
      else (PDT_SUCCESS, some ⟨(y : Int), (mo : Int), (d : Int), (h : Int),
        (mi : Int), (sec : Int), (msSpec frac : Int)⟩) := by
  unfold pdt_parse_rfc3339_datetime
  rw [List.take_length,
    pdt_core_render y mo d sep h mi sec frac tz hy hmo hd hh hmi hsec hfrac hoff]
  by_cases h1 : mo = 0 ∨ 12 < mo
  · simp [h1]
  by_cases h2 : d = 0 ∨ daysInMonth y mo < d
  · simp [h1, h2]
  by_cases h3 : 23 < h
  · simp [h1, h2, h3]
  by_cases h4 : 59 < mi
  · simp [h1, h2, h3, h4]
  by_cases h5 : 60 < sec
  · simp [h1, h2, h3, h4, h5]
  by_cases h6 : frac = some []
  · simp [h1, h2, h3, h4, h5, h6]
  by_cases h7 : tzBadB tz
  · simp [h1, h2, h3, h4, h5, h6, h7]
  · simp [h1, h2, h3, h4, h5, h6, h7]

/-! Extension lemmas: a successful partial walk is unchanged when more bytes
are appended after the declared input, subject to the lookahead conditions of
the optional fraction and designator. -/

theorem readDigitsL_append (w acc v : Nat) (s r t : List Nat)
    (h : readDigitsL w acc s = .ok (v, r)) :
    readDigitsL w acc (s ++ t) = .ok (v, r ++ t) := by
  induction w generalizing acc s with
  | zero =>
      simp only [readDigitsL, Except.ok.injEq, Prod.mk.injEq] at h
      obtain ⟨rfl, rfl⟩ := h
      rfl
  | succ w ih =>
      cases s with
      | nil => simp [readDigitsL] at h
      | cons b s1 =>
          simp only [readDigitsL, List.cons_append] at h ⊢
          by_cases hb : isDigitB b
          · rw [if_pos hb] at h ⊢
            exact ih _ _ h
          · rw [if_neg hb] at h
            simp at h

theorem expectL_append (c : Nat) (s r t : List Nat) (h : expectL c s = .ok r) :
    expectL c (s ++ t) = .ok (r ++ t) := by
  cases s with
  | nil => simp [expectL] at h
  | cons b s1 =>
      simp only [expectL, List.cons_append] at h ⊢
      by_cases hb : b = c
      · rw [if_pos hb] at h ⊢
        simp only [Except.ok.injEq] at h
        rw [h]
      · rw [if_neg hb] at h
        simp at h

theorem anyByteL_append (s r t : List Nat) (h : anyByteL s = .ok r) :
    anyByteL (s ++ t) = .ok (r ++ t) := by
  cases s with
  | nil => simp [anyByteL] at h
  | cons b s1 =>
      simp only [anyByteL, List.cons_append, Except.ok.injEq] at h ⊢
      rw [h]

theorem takeWhile_append_stop {p : Nat → Bool} (s t : List Nat)
    (h : s.dropWhile p ≠ []) :
    (s ++ t).takeWhile p = s.takeWhile p ∧
      (s ++ t).dropWhile p = s.dropWhile p ++ t := by
  induction s with
  | nil => simp at h
  | cons a s ih =>
      by_cases ha : p a
      · have h2 : s.dropWhile p ≠ [] := by
          simpa [List.dropWhile_cons, ha] using h
        have hrec := ih h2
        simp [List.takeWhile_cons, List.dropWhile_cons, ha, hrec.1, hrec.2]
      · simp [List.takeWhile_cons, List.dropWhile_cons, ha]

theorem fracL_append (s r t : List Nat) (ms : Nat)
    (h : fracL s = .ok (ms, r))
    (hcond : r = [] → ∀ c, t.head? = some c → isDigitB c = false ∧ c ≠ 46) :
    fracL (s ++ t) = .ok (ms, r ++ t) := by
  cases s with
  | nil =>
      simp only [fracL, Except.ok.injEq, Prod.mk.injEq] at h
      obtain ⟨rfl, rfl⟩ := h
      cases t with
      | nil => rfl
      | cons c t1 =>
          have hc := hcond rfl c rfl
          have hc46 : c ≠ 46 := hc.2
          simp [fracL, hc46]
  | cons b s1 =>
      simp only [fracL, List.cons_append] at h ⊢
      by_cases hb : b = 46
      · rw [if_pos hb] at h ⊢
        by_cases htw : s1.takeWhile isDigitB = []
        · rw [if_pos htw] at h
          simp at h
        · rw [if_neg htw] at h
          simp only [Except.ok.injEq, Prod.mk.injEq] at h
          obtain ⟨rfl, rfl⟩ := h
          by_cases hdw : s1.dropWhile isDigitB = []
          · have hall : ∀ x ∈ s1, isDigitB x = true :=
              List.dropWhile_eq_nil_iff.mp hdw
            have htw1 : s1.takeWhile isDigitB = s1 :=
              List.takeWhile_eq_self_iff.mpr hall
            have hcnd := hcond hdw
            have ht := takeWhile_nil_of_head (p := isDigitB) t
              (fun c hc => (hcnd c hc).1)
            have happ := takeWhile_append_all (p := isDigitB) s1 t hall
            rw [happ.1, happ.2, ht.1, ht.2, List.append_nil]
            rw [if_neg (by rw [htw1] at htw; exact htw), htw1, hdw]
            simp
          · have hstop := takeWhile_append_stop (p := isDigitB) s1 t hdw
            rw [hstop.1, hstop.2, if_neg htw]
      · rw [if_neg hb] at h ⊢
        simp only [Except.ok.injEq, Prod.mk.injEq] at h
        obtain ⟨rfl, rfl⟩ := h
        rfl

theorem offsetL_append (s r t : List Nat) (tzp : Bool)
    (h : offsetL s = .ok (tzp, r)) :
    offsetL (s ++ t) = .ok (tzp, r ++ t) := by
  unfold offsetL at h
  cases h1 : readDigitsL 2 0 s with
  | error e => rw [h1] at h; simp at h
  | ok v =>
      obtain ⟨oh, s1⟩ := v
      simp only [h1] at h
      by_cases hoh : 23 < oh
      · rw [if_pos hoh] at h; simp at h
      · rw [if_neg hoh] at h
        cases h2 : expectL 58 s1 with
        | error e => rw [h2] at h; simp at h
        | ok s2 =>
            simp only [h2] at h
            cases h3 : readDigitsL 2 0 s2 with
            | error e => rw [h3] at h; simp at h
            | ok v3 =>
                obtain ⟨om, s3⟩ := v3
                simp only [h3] at h
                by_cases hom : 59 < om
                · rw [if_pos hom] at h; simp at h
                · rw [if_neg hom] at h
                  simp only [Except.ok.injEq, Prod.mk.injEq] at h
                  obtain ⟨rfl, rfl⟩ := h
                  simp only [offsetL, readDigitsL_append 2 0 oh s s1 t h1,
                    if_neg hoh, expectL_append 58 s1 s2 t h2,
                    readDigitsL_append 2 0 om s2 s3 t h3, if_neg hom]

theorem stepDate_append (s t : List Nat) (y mo d : Nat) (r : List Nat)
    (h : stepDate s = .ok (y, mo, d, r)) :
    stepDate (s ++ t) = .ok (y, mo, d, r ++ t) := by
  unfold stepDate at h
  cases h1 : readDigitsL 4 0 s with
  | error e => rw [h1] at h; simp at h
  | ok v =>
      obtain ⟨y1, s1⟩ := v
      simp only [h1] at h
      cases h2 : expectL 45 s1 with
      | error e => rw [h2] at h; simp at h
      | ok s2 =>
          simp only [h2] at h
          cases h3 : readDigitsL 2 0 s2 with
          | error e => rw [h3] at h; simp at h
          | ok v3 =>
              obtain ⟨mo1, s3⟩ := v3
              simp only [h3] at h
              by_cases hmo1 : mo1 = 0 ∨ 12 < mo1
              · rw [if_pos hmo1] at h; simp at h
              · rw [if_neg hmo1] at h
                cases h4 : expectL 45 s3 with
                | error e => rw [h4] at h; simp at h
                | ok s4 =>
                    simp only [h4] at h
                    cases h5 : readDigitsL 2 0 s4 with
                    | error e => rw [h5] at h; simp at h
                    | ok v5 =>
                        obtain ⟨d1, s5⟩ := v5
                        simp only [h5] at h
                        by_cases hd1 : d1 = 0 ∨ daysInMonth y1 mo1 < d1
                        · rw [if_pos hd1] at h; simp at h
                        · rw [if_neg hd1] at h
                          simp only [Except.ok.injEq, Prod.mk.injEq] at h
                          obtain ⟨rfl, rfl, rfl, rfl⟩ := h
                          simp only [stepDate,
                            readDigitsL_append 4 0 y1 s s1 t h1,
                            expectL_append 45 s1 s2 t h2,
                            readDigitsL_append 2 0 mo1 s2 s3 t h3,
                            if_neg hmo1,
                            expectL_append 45 s3 s4 t h4,
                            readDigitsL_append 2 0 d1 s4 s5 t h5,
                            if_neg hd1]

theorem stepTime_append (s t : List Nat) (hv mi sec : Nat) (r : List Nat)
    (h : stepTime s = .ok (hv, mi, sec, r)) :
    stepTime (s ++ t) = .ok (hv, mi, sec, r ++ t) := by
  unfold stepTime at h
  cases h1 : anyByteL s with
  | error e => rw [h1] at h; simp at h
  | ok s1 =>
      simp only [h1] at h
      cases h2 : readDigitsL 2 0 s1 with
      | error e => rw [h2] at h; simp at h
      | ok v2 =>
          obtain ⟨h1v, s2⟩ := v2
          simp only [h2] at h
          by_cases hh1 : 23 < h1v
          · rw [if_pos hh1] at h; simp at h
          · rw [if_neg hh1] at h
            cases h3 : expectL 58 s2 with
            | error e => rw [h3] at h; simp at h
            | ok s3 =>
                simp only [h3] at h
                cases h4 : readDigitsL 2 0 s3 with
                | error e => rw [h4] at h; simp at h
                | ok v4 =>
                    obtain ⟨mi1, s4⟩ := v4
                    simp only [h4] at h
                    by_cases hmi1 : 59 < mi1
                    · rw [if_pos hmi1] at h; simp at h
                    · rw [if_neg hmi1] at h
                      cases h5 : expectL 58 s4 with
                      | error e => rw [h5] at h; simp at h
                      | ok s5 =>
                          simp only [h5] at h
                          cases h6 : readDigitsL 2 0 s5 with
                          | error e => rw [h6] at h; simp at h
                          | ok v6 =>
                              obtain ⟨sec1, s6⟩ := v6
                              simp only [h6] at h
                              by_cases hsec1 : 60 < sec1
                              · rw [if_pos hsec1] at h; simp at h
                              · rw [if_neg hsec1] at h
                                simp only [Except.ok.injEq, Prod.mk.injEq] at h
                                obtain ⟨rfl, rfl, rfl, rfl⟩ := h
                                simp only [stepTime,
                                  anyByteL_append s s1 t h1,
                                  readDigitsL_append 2 0 h1v s1 s2 t h2,
                                  if_neg hh1,
                                  expectL_append 58 s2 s3 t h3,
                                  readDigitsL_append 2 0 mi1 s3 s4 t h4,
                                  if_neg hmi1,
                                  expectL_append 58 s4 s5 t h5,
                                  readDigitsL_append 2 0 sec1 s5 s6 t h6,
                                  if_neg hsec1]

theorem tzL_append_ok (s r t : List Nat) (tzp : Bool)
    (h : tzL s = .ok (tzp, r))
    (hcond : s = [] → ∀ c, t.head? = some c → c ≠ 43 ∧ c ≠ 45) :
    ∃ tzp2 r2, tzL (s ++ t) = .ok (tzp2, r2) := by
  cases s with
  | nil =>
      cases t with
      | nil => exact ⟨false, [], rfl⟩
      | cons c t1 =>
          have hc := hcond rfl c rfl
          by_cases hc90 : c = 90
          · exact ⟨true, t1, by simp [tzL, hc90]⟩
          · have : ¬(c = 43 ∨ c = 45) := by
              rintro (rfl | rfl)
              · exact hc.1 rfl
              · exact hc.2 rfl
            exact ⟨false, c :: t1, by simp [tzL, hc90, this]⟩
  | cons b s1 =>
      simp only [tzL, List.cons_append] at h ⊢
      by_cases hb90 : b = 90
      · rw [if_pos hb90] at h ⊢
        simp only [Except.ok.injEq, Prod.mk.injEq] at h
        exact ⟨true, s1 ++ t, by rw [h.2]⟩
      · rw [if_neg hb90] at h ⊢
        by_cases hb45 : b = 43 ∨ b = 45
        · rw [if_pos hb45] at h ⊢
          exact ⟨tzp, r ++ t, offsetL_append s1 r t tzp h⟩
        · rw [if_neg hb45] at h ⊢
          simp only [Except.ok.injEq, Prod.mk.injEq] at h
          exact ⟨false, b :: (s1 ++ t), by simp [h.1]⟩

theorem pdt_core_append (s t : List Nat) (dt : pdt_precise_local_date_time)
    (tzp : Bool)
    (h : pdt_core s = .ok (dt, tzp, []))
    (hcond : tzp = false → ∀ c, t.head? = some c →
      isDigitB c = false ∧ c ≠ 43 ∧ c ≠ 45 ∧ c ≠ 46) :
    ∃ tzp2 r2, pdt_core (s ++ t) = .ok (dt, tzp2, r2) := by
  unfold pdt_core at h
  cases h1 : stepDate s with
  | error e => rw [h1] at h; simp at h
  | ok v1 =>
      obtain ⟨y, mo, d, s1⟩ := v1
      simp only [h1] at h
      cases h2 : stepTime s1 with
      | error e => rw [h2] at h; simp at h
      | ok v2 =>
          obtain ⟨hv, mi, sec, s2⟩ := v2
          simp only [h2] at h
          cases h3 : fracL s2 with
          | error e => rw [h3] at h; simp at h
          | ok v3 =>
              obtain ⟨ms, s3⟩ := v3
              simp only [h3] at h
              cases h4 : tzL s3 with
              | error e => rw [h4] at h; simp at h
              | ok v4 =>
                  obtain ⟨tzp4, s4⟩ := v4
                  simp only [h4, Except.ok.injEq, Prod.mk.injEq] at h
                  obtain ⟨rfl, rfl, rfl⟩ := h
                  have hs3cond : s3 = [] → ∀ c, t.head? = some c →
                      isDigitB c = false ∧ c ≠ 46 := by
                    intro hs3 c hc
                    subst hs3
                    have htzp : tzp4 = false := by
                      simp [tzL] at h4
                      exact h4
                    have := hcond htzp c hc
                    exact ⟨this.1, this.2.2.2⟩
                  have hfr := fracL_append s2 s3 t ms h3 hs3cond
                  have htzcond : s3 = [] → ∀ c, t.head? = some c →
                      c ≠ 43 ∧ c ≠ 45 := by
                    intro hs3 c hc
                    subst hs3
                    have htzp : tzp4 = false := by
                      simp [tzL] at h4
                      exact h4
                    have := hcond htzp c hc
                    exact ⟨this.2.1, this.2.2.1⟩
                  obtain ⟨tzp2, r2, htzeq⟩ := tzL_append_ok s3 [] t tzp4 h4 htzcond
                  refine ⟨tzp2, r2, ?_⟩
                  simp only [pdt_core, stepDate_append s t y mo d s1 h1,
                    stepTime_append s1 t hv mi sec s2 h2, hfr, htzeq]

/-! Truncation lemmas: cutting a successful walk short of its consumed width
always ends in a structural parse-error. -/

theorem readDigitsL_take (w acc v : Nat) (s r : List Nat) (k : Nat)
    (h : readDigitsL w acc s = .ok (v, r)) :
    readDigitsL w acc (s.take k) =
      if k < w then .error .parseError else .ok (v, r.take (k - w)) := by
  induction w generalizing acc s k with
  | zero =>
      simp only [readDigitsL, Except.ok.injEq, Prod.mk.injEq] at h
      obtain ⟨rfl, rfl⟩ := h
      simp [readDigitsL]
  | succ w ih =>
      cases s with
      | nil => simp [readDigitsL] at h
      | cons b s1 =>
          simp only [readDigitsL] at h
          by_cases hb : isDigitB b
          · rw [if_pos hb] at h
            cases k with
            | zero =>
                simp only [List.take_zero, readDigitsL]
                rw [if_pos (Nat.succ_pos w)]
            | succ k1 =>
                simp only [List.take_succ_cons, readDigitsL]
                rw [if_pos hb, ih _ _ _ h]
                by_cases hk : k1 < w
                · rw [if_pos hk, if_pos (by omega)]
                · rw [if_neg hk, if_neg (by omega), Nat.succ_sub_succ]
          · rw [if_neg hb] at h
            simp at h

theorem expectL_take (c : Nat) (s r : List Nat) (k : Nat)
    (h : expectL c s = .ok r) :
    expectL c (s.take k) =
      if k = 0 then .error .parseError else .ok (r.take (k - 1)) := by
  cases s with
  | nil => simp [expectL] at h
  | cons b s1 =>
      simp only [expectL] at h
      by_cases hb : b = c
      · rw [if_pos hb] at h
        simp only [Except.ok.injEq] at h
        subst h
        cases k with
        | zero => simp [expectL]
        | succ k1 =>
            simp only [List.take_succ_cons, expectL]
            rw [if_pos hb, if_neg (Nat.succ_ne_zero k1), Nat.succ_sub_one]
      · rw [if_neg hb] at h
        simp at h

theorem anyByteL_take (s r : List Nat) (k : Nat) (h : anyByteL s = .ok r) :
    anyByteL (s.take k) =
      if k = 0 then .error .parseError else .ok (r.take (k - 1)) := by
  cases s with
  | nil => simp [anyByteL] at h
  | cons b s1 =>
      simp only [anyByteL, Except.ok.injEq] at h
      subst h
      cases k with
      | zero => simp [anyByteL]
      | succ k1 =>
          simp only [List.take_succ_cons, anyByteL]
          rw [if_neg (Nat.succ_ne_zero k1), Nat.succ_sub_one]

theorem stepDate_take (s : List Nat) (y mo d : Nat) (r : List Nat) (k : Nat)
    (h : stepDate s = .ok (y, mo, d, r)) :
    stepDate (s.take k) =
      if k < 10 then .error .parseError else .ok (y, mo, d, r.take (k - 10)) := by
  unfold stepDate at h
  cases h1 : readDigitsL 4 0 s with
  | error e => rw [h1] at h; simp at h
  | ok v =>
      obtain ⟨y1, s1⟩ := v
      simp only [h1] at h
      cases h2 : expectL 45 s1 with
      | error e => rw [h2] at h; simp at h
      | ok s2 =>
          simp only [h2] at h
          cases h3 : readDigitsL 2 0 s2 with
          | error e => rw [h3] at h; simp at h
          | ok v3 =>
              obtain ⟨mo1, s3⟩ := v3
              simp only [h3] at h
              by_cases hmo1 : mo1 = 0 ∨ 12 < mo1
              · rw [if_pos hmo1] at h; simp at h
              · rw [if_neg hmo1] at h
                cases h4 : expectL 45 s3 with
                | error e => rw [h4] at h; simp at h
                | ok s4 =>
                    simp only [h4] at h
                    cases h5 : readDigitsL 2 0 s4 with
                    | error e => rw [h5] at h; simp at h
                    | ok v5 =>
                        obtain ⟨d1, s5⟩ := v5
                        simp only [h5] at h
                        by_cases hd1 : d1 = 0 ∨ daysInMonth y1 mo1 < d1
                        · rw [if_pos hd1] at h; simp at h
                        · rw [if_neg hd1] at h
                          simp only [Except.ok.injEq, Prod.mk.injEq] at h
                          obtain ⟨rfl, rfl, rfl, rfl⟩ := h
                          simp only [stepDate, readDigitsL_take 4 0 y1 s s1 k h1]
                          by_cases hk4 : k < 4
                          · simp only [if_pos hk4]
                            rw [if_pos (by omega)]
                          · simp only [if_neg hk4, expectL_take 45 s1 s2 (k - 4) h2]
                            by_cases hk5 : k - 4 = 0
                            · simp only [if_pos hk5]
                              rw [if_pos (by omega)]
                            · simp only [if_neg hk5,
                                readDigitsL_take 2 0 mo1 s2 s3 (k - 4 - 1) h3]
                              by_cases hk7 : k - 4 - 1 < 2
                              · simp only [if_pos hk7]
                                rw [if_pos (by omega)]
                              · simp only [if_neg hk7, if_neg hmo1,
                                  expectL_take 45 s3 s4 (k - 4 - 1 - 2) h4]
                                by_cases hk8 : k - 4 - 1 - 2 = 0
                                · simp only [if_pos hk8]
                                  rw [if_pos (by omega)]
                                · simp only [if_neg hk8,
                                    readDigitsL_take 2 0 d1 s4 s5
                                      (k - 4 - 1 - 2 - 1) h5]
                                  by_cases hk9 : k - 4 - 1 - 2 - 1 < 2
                                  · simp only [if_pos hk9]
                                    rw [if_pos (by omega)]
                                  · simp only [if_neg hk9, if_neg hd1]
                                    rw [if_neg (show ¬k < 10 from by omega),
                                      show k - 4 - 1 - 2 - 1 - 2 = k - 10 from
                                        by omega]

theorem stepTime_take (s : List Nat) (hv mi sec : Nat) (r : List Nat) (k : Nat)
    (h : stepTime s = .ok (hv, mi, sec, r)) :
    stepTime (s.take k) =
      if k < 9 then .error .parseError else .ok (hv, mi, sec, r.take (k - 9)) := by
  unfold stepTime at h
  cases h1 : anyByteL s with
  | error e => rw [h1] at h; simp at h
  | ok s1 =>
      simp only [h1] at h
      cases h2 : readDigitsL 2 0 s1 with
      | error e => rw [h2] at h; simp at h
      | ok v2 =>
          obtain ⟨h1v, s2⟩ := v2
          simp only [h2] at h
          by_cases hh1 : 23 < h1v
          · rw [if_pos hh1] at h; simp at h
          · rw [if_neg hh1] at h
            cases h3 : expectL 58 s2 with
            | error e => rw [h3] at h; simp at h
            | ok s3 =>
                simp only [h3] at h
                cases h4 : readDigitsL 2 0 s3 with
                | error e => rw [h4] at h; simp at h
                | ok v4 =>
                    obtain ⟨mi1, s4⟩ := v4
                    simp only [h4] at h
                    by_cases hmi1 : 59 < mi1
                    · rw [if_pos hmi1] at h; simp at h
                    · rw [if_neg hmi1] at h
                      cases h5 : expectL 58 s4 with
                      | error e => rw [h5] at h; simp at h
                      | ok s5 =>
                          simp only [h5] at h
                          cases h6 : readDigitsL 2 0 s5 with
                          | error e => rw [h6] at h; simp at h
                          | ok v6 =>
                              obtain ⟨sec1, s6⟩ := v6
                              simp only [h6] at h
                              by_cases hsec1 : 60 < sec1
                              · rw [if_pos hsec1] at h; simp at h
                              · rw [if_neg hsec1] at h
                                simp only [Except.ok.injEq, Prod.mk.injEq] at h
                                obtain ⟨rfl, rfl, rfl, rfl⟩ := h
                                simp only [stepTime, anyByteL_take s s1 k h1]
                                by_cases hk1 : k = 0
                                · simp only [if_pos hk1]
                                  rw [if_pos (by omega)]
                                · simp only [if_neg hk1,
                                    readDigitsL_take 2 0 h1v s1 s2 (k - 1) h2]
                                  by_cases hk2 : k - 1 < 2
                                  · simp only [if_pos hk2]
                                    rw [if_pos (by omega)]
                                  · simp only [if_neg hk2, if_neg hh1,
                                      expectL_take 58 s2 s3 (k - 1 - 2) h3]
                                    by_cases hk3 : k - 1 - 2 = 0
                                    · simp only [if_pos hk3]
                                      rw [if_pos (by omega)]
                                    · simp only [if_neg hk3,
                                        readDigitsL_take 2 0 mi1 s3 s4
                                          (k - 1 - 2 - 1) h4]
                                      by_cases hk4 : k - 1 - 2 - 1 < 2
                                      · simp only [if_pos hk4]
                                        rw [if_pos (by omega)]
                                      · simp only [if_neg hk4, if_neg hmi1,
                                          expectL_take 58 s4 s5
                                            (k - 1 - 2 - 1 - 2) h5]
                                        by_cases hk5 : k - 1 - 2 - 1 - 2 = 0
                                        · simp only [if_pos hk5]
                                          rw [if_pos (by omega)]
                                        · simp only [if_neg hk5,
                                            readDigitsL_take 2 0 sec1 s5 s6
                                              (k - 1 - 2 - 1 - 2 - 1) h6]
                                          by_cases hk6 : k - 1 - 2 - 1 - 2 - 1 < 2
                                          · simp only [if_pos hk6]
                                            rw [if_pos (by omega)]
                                          · simp only [if_neg hk6, if_neg hsec1]
                                            rw [if_neg (show ¬k < 9 from by omega),
                                              show k - 1 - 2 - 1 - 2 - 1 - 2 = k - 9
                                                from by omega]

/-! Support lemmas for the structural-failure and trailing-byte claims. -/

theorem render19_length (y mo d sep h mi sec : Nat) :
    (render19 y mo d sep h mi sec).length = 19 := by
  simp [render19, digits4, digits2, digitsOf4, digitsOf2]

theorem render_take (y mo d sep h mi sec : Nat) (frac : Option (List Nat))
    (tz : TZ) (k : Nat) (hk : k ≤ 19) :
    (render y mo d sep h mi sec frac tz).take k =
      (render19 y mo d sep h mi sec).take k := by
  rw [render, List.take_append_of_le_length (by rw [render19_length]; exact hk)]

theorem expectL_fail (c b : Nat) (r : List Nat) (h : b ≠ c) :
    expectL c (b :: r) = .error .parseError := by
  simp [expectL, h]

theorem readDigitsL_fail2 (acc b1 b2 : Nat) (r : List Nat)
    (h : ¬(isDigitB b1 = true ∧ isDigitB b2 = true)) :
    readDigitsL 2 acc (b1 :: b2 :: r) = .error .parseError := by
  by_cases h1 : isDigitB b1
  · have h2 : isDigitB b2 = false := by
      cases hb2 : isDigitB b2
      · rfl
      · exact absurd ⟨h1, hb2⟩ h
    simp [readDigitsL, h1, h2]
  · simp [readDigitsL, h1]

theorem readDigitsL_fail4 (acc b1 b2 b3 b4 : Nat) (r : List Nat)
    (h : ¬(isDigitB b1 = true ∧ isDigitB b2 = true ∧ isDigitB b3 = true ∧
      isDigitB b4 = true)) :
    readDigitsL 4 acc (b1 :: b2 :: b3 :: b4 :: r) = .error .parseError := by
  by_cases h1 : isDigitB b1
  · by_cases h2 : isDigitB b2
    · by_cases h3 : isDigitB b3
      · have h4 : isDigitB b4 = false := by
          cases hb4 : isDigitB b4
          · rfl
          · exact absurd ⟨h1, h2, h3, hb4⟩ h
        simp [readDigitsL, h1, h2, h3, h4]
      · simp [readDigitsL, h1, h2, h3]
    · simp [readDigitsL, h1, h2]
  · simp [readDigitsL, h1]

theorem offsetL_ok_true (s r : List Nat) (p : Bool)
    (h : offsetL s = .ok (p, r)) : p = true := by
  unfold offsetL at h
  cases h1 : readDigitsL 2 0 s with
  | error e => rw [h1] at h; simp at h
  | ok v =>
      obtain ⟨oh, s1⟩ := v
      simp only [h1] at h
      by_cases hoh : 23 < oh
      · rw [if_pos hoh] at h; simp at h
      · rw [if_neg hoh] at h
        cases h2 : expectL 58 s1 with
        | error e => rw [h2] at h; simp at h
        | ok s2 =>
            simp only [h2] at h
            cases h3 : readDigitsL 2 0 s2 with
            | error e => rw [h3] at h; simp at h
            | ok v3 =>
                obtain ⟨om, s3⟩ := v3
                simp only [h3] at h
                by_cases hom : 59 < om
                · rw [if_pos hom] at h; simp at h
                · rw [if_neg hom] at h
                  simp only [Except.ok.injEq, Prod.mk.injEq] at h
                  exact h.1.symm

theorem tzBadB_false_of_valid (tz : TZ)
    (hoff : ∀ sgn oh om, tz = .offset sgn oh om → oh ≤ 23 ∧ om ≤ 59) :
    tzBadB tz = false := by
  cases tz with
  | absent => rfl
  | zulu => rfl
  | offset sgn oh om =>
      obtain ⟨h1, h2⟩ := hoff sgn oh om rfl
      simp [tzBadB]
      omega

theorem pdt_core_append_tz (xs : List Nat) (dt : pdt_precise_local_date_time)
    (tz : TZ)
    (h : pdt_core xs = .ok (dt, false, []))
    (hoff : ∀ sgn oh om, tz = .offset sgn oh om → oh ≤ 23 ∧ om ≤ 59) :
    pdt_core (xs ++ tzBytes tz) = .ok (dt, tzIsPresent tz, []) := by
  unfold pdt_core at h
  cases h1 : stepDate xs with
  | error e => rw [h1] at h; simp at h
  | ok v1 =>
      obtain ⟨y, mo, d, s1⟩ := v1
      simp only [h1] at h
      cases h2 : stepTime s1 with
      | error e => rw [h2] at h; simp at h
      | ok v2 =>
          obtain ⟨hv, mi, sec, s2⟩ := v2
          simp only [h2] at h
          cases h3 : fracL s2 with
          | error e => rw [h3] at h; simp at h
          | ok v3 =>
              obtain ⟨ms, s3⟩ := v3
              simp only [h3] at h
              cases h4 : tzL s3 with
              | error e => rw [h4] at h; simp at h
              | ok v4 =>
                  obtain ⟨tzp4, s4⟩ := v4
                  simp only [h4, Except.ok.injEq, Prod.mk.injEq] at h
                  obtain ⟨rfl, htzp4, hs4⟩ := h
                  subst hs4
                  have hs3 : s3 = [] := by
                    cases s3 with
                    | nil => rfl
                    | cons b s5 =>
                        simp only [tzL] at h4
                        by_cases hb90 : b = 90
                        · rw [if_pos hb90] at h4
                          simp only [Except.ok.injEq, Prod.mk.injEq] at h4
                          exact absurd (h4.1.trans htzp4) (by simp)
                        · rw [if_neg hb90] at h4
                          by_cases hb45 : b = 43 ∨ b = 45
                          · rw [if_pos hb45] at h4
                            have htv := offsetL_ok_true s5 [] tzp4 h4
                            rw [htzp4] at htv
                            simp at htv
                          · rw [if_neg hb45] at h4
                            simp only [Except.ok.injEq, Prod.mk.injEq] at h4
                            exact absurd h4.2 (by simp)
                  subst hs3
                  have hfr := fracL_append s2 [] (tzBytes tz) ms h3
                    (fun _ c hc => ⟨tzHead_notDigit tz c hc, tzHead_not46 tz c hc⟩)
                  have hoff99 : ∀ sgn oh om, tz = .offset sgn oh om →
                      oh ≤ 99 ∧ om ≤ 99 := by
                    intro sgn oh om hcon
                    obtain ⟨a, b⟩ := hoff sgn oh om hcon
                    exact ⟨by omega, by omega⟩
                  have htzev := tzL_eval tz hoff99
                  rw [tzBadB_false_of_valid tz hoff] at htzev
                  simp only [Bool.false_eq_true, if_false] at htzev
                  simp only [pdt_core, stepDate_append xs (tzBytes tz) y mo d s1 h1,
                    stepTime_append s1 (tzBytes tz) hv mi sec s2 h2, hfr,
                    List.nil_append, htzev]

/-! The structural-rejection cases: one lemma per damaged grammar position. -/

theorem daysInMonth_le (y m : Nat) : daysInMonth y m ≤ 31 := by
  unfold daysInMonth
  split
  · split <;> omega
  · split <;> omega

theorem c5part_year (b1 b2 b3 b4 : Nat) (rest : List Nat)
    (h : ¬(isDigitB b1 = true ∧ isDigitB b2 = true ∧ isDigitB b3 = true ∧
      isDigitB b4 = true)) :
    pdt_parse_rfc3339_datetime (b1 :: b2 :: b3 :: b4 :: rest)
      (b1 :: b2 :: b3 :: b4 :: rest).length = (PDT_PARSE_ERROR, none) := by
  unfold pdt_parse_rfc3339_datetime
  rw [List.take_length]
  simp only [pdt_core, stepDate, readDigitsL_fail4 0 b1 b2 b3 b4 rest h]

theorem c5part_dash1 (y c : Nat) (rest : List Nat) (hy : y ≤ 9999)
    (hc : c ≠ 45) :
    pdt_parse_rfc3339_datetime (digits4 y ++ c :: rest)
      (digits4 y ++ c :: rest).length = (PDT_PARSE_ERROR, none) := by
  unfold pdt_parse_rfc3339_datetime
  rw [List.take_length]
  simp only [pdt_core, stepDate, readDigits4_eval y _ hy,
    expectL_fail 45 c rest hc]

theorem c5part_month (y b1 b2 : Nat) (rest : List Nat) (hy : y ≤ 9999)
    (h : ¬(isDigitB b1 = true ∧ isDigitB b2 = true)) :
    pdt_parse_rfc3339_datetime (digits4 y ++ 45 :: b1 :: b2 :: rest)
      (digits4 y ++ 45 :: b1 :: b2 :: rest).length = (PDT_PARSE_ERROR, none) := by
  unfold pdt_parse_rfc3339_datetime
  rw [List.take_length]
  simp only [pdt_core, stepDate, readDigits4_eval y _ hy, expectL_cons,
    readDigitsL_fail2 0 b1 b2 rest h]

theorem c5part_dash2 (y mo c : Nat) (rest : List Nat) (hy : y ≤ 9999)
    (hmo : 1 ≤ mo ∧ mo ≤ 12) (hc : c ≠ 45) :
    pdt_parse_rfc3339_datetime (digits4 y ++ 45 :: (digits2 mo ++ c :: rest))
        (digits4 y ++ 45 :: (digits2 mo ++ c :: rest)).length =
      (PDT_PARSE_ERROR, none) := by
  unfold pdt_parse_rfc3339_datetime
  rw [List.take_length]
  simp only [pdt_core, stepDate, readDigits4_eval y _ hy, expectL_cons,
    readDigits2_eval mo _ (by omega), if_neg (show ¬(mo = 0 ∨ 12 < mo) from
      by omega), expectL_fail 45 c rest hc]

theorem c5part_day (y mo b1 b2 : Nat) (rest : List Nat) (hy : y ≤ 9999)
    (hmo : 1 ≤ mo ∧ mo ≤ 12)
    (h : ¬(isDigitB b1 = true ∧ isDigitB b2 = true)) :
    pdt_parse_rfc3339_datetime
        (digits4 y ++ 45 :: (digits2 mo ++ 45 :: b1 :: b2 :: rest))
        (digits4 y ++ 45 :: (digits2 mo ++ 45 :: b1 :: b2 :: rest)).length =
      (PDT_PARSE_ERROR, none) := by
  unfold pdt_parse_rfc3339_datetime
  rw [List.take_length]
  simp only [pdt_core, stepDate, readDigits4_eval y _ hy, expectL_cons,
    readDigits2_eval mo _ (by omega), if_neg (show ¬(mo = 0 ∨ 12 < mo) from
      by omega), readDigitsL_fail2 0 b1 b2 rest h]

theorem c5part_hour (y mo d sep b1 b2 : Nat) (rest : List Nat) (hy : y ≤ 9999)
    (hmo : 1 ≤ mo ∧ mo ≤ 12) (hd : 1 ≤ d ∧ d ≤ daysInMonth y mo)
    (h : ¬(isDigitB b1 = true ∧ isDigitB b2 = true)) :
    pdt_parse_rfc3339_datetime
        (digits4 y ++ 45 :: (digits2 mo ++ 45 :: (digits2 d ++
          sep :: b1 :: b2 :: rest)))
        (digits4 y ++ 45 :: (digits2 mo ++ 45 :: (digits2 d ++
          sep :: b1 :: b2 :: rest))).length =
      (PDT_PARSE_ERROR, none) := by
  unfold pdt_parse_rfc3339_datetime
  rw [List.take_length]
  simp only [pdt_core,
    stepDate_ok y mo d (sep :: b1 :: b2 :: rest) hy (by omega)
      (by have := daysInMonth_le y mo; omega)
      (by omega) (by omega),
    stepTime, anyByteL_cons, readDigitsL_fail2 0 b1 b2 rest h]

theorem c5part_colon1 (y mo d sep h c : Nat) (rest : List Nat) (hy : y ≤ 9999)
    (hmo : 1 ≤ mo ∧ mo ≤ 12) (hd : 1 ≤ d ∧ d ≤ daysInMonth y mo) (hh : h ≤ 23)
    (hc : c ≠ 58) :
    pdt_parse_rfc3339_datetime
        (digits4 y ++ 45 :: (digits2 mo ++ 45 :: (digits2 d ++
          sep :: (digits2 h ++ c :: rest))))
        (digits4 y ++ 45 :: (digits2 mo ++ 45 :: (digits2 d ++
          sep :: (digits2 h ++ c :: rest)))).length =
      (PDT_PARSE_ERROR, none) := by
  unfold pdt_parse_rfc3339_datetime
  rw [List.take_length]
  simp only [pdt_core,
    stepDate_ok y mo d (sep :: (digits2 h ++ c :: rest)) hy (by omega)
      (by have := daysInMonth_le y mo; omega) (by omega) (by omega),
    stepTime, anyByteL_cons, readDigits2_eval h _ (by omega),
    if_neg (show ¬23 < h from by omega), expectL_fail 58 c rest hc]

theorem c5part_minute (y mo d sep h b1 b2 : Nat) (rest : List Nat)
    (hy : y ≤ 9999) (hmo : 1 ≤ mo ∧ mo ≤ 12)
    (hd : 1 ≤ d ∧ d ≤ daysInMonth y mo) (hh : h ≤ 23)
    (h2 : ¬(isDigitB b1 = true ∧ isDigitB b2 = true)) :
    pdt_parse_rfc3339_datetime
        (digits4 y ++ 45 :: (digits2 mo ++ 45 :: (digits2 d ++
          sep :: (digits2 h ++ 58 :: b1 :: b2 :: rest))))
        (digits4 y ++ 45 :: (digits2 mo ++ 45 :: (digits2 d ++
          sep :: (digits2 h ++ 58 :: b1 :: b2 :: rest)))).length =
      (PDT_PARSE_ERROR, none) := by
  unfold pdt_parse_rfc3339_datetime
  rw [List.take_length]
  simp only [pdt_core,
    stepDate_ok y mo d (sep :: (digits2 h ++ 58 :: b1 :: b2 :: rest)) hy
      (by omega) (by have := daysInMonth_le y mo; omega) (by omega) (by omega),
    stepTime, anyByteL_cons, readDigits2_eval h _ (by omega),
    if_neg (show ¬23 < h from by omega), expectL_cons,
    readDigitsL_fail2 0 b1 b2 rest h2]

theorem c5part_colon2 (y mo d sep h mi c : Nat) (rest : List Nat)
    (hy : y ≤ 9999) (hmo : 1 ≤ mo ∧ mo ≤ 12)
    (hd : 1 ≤ d ∧ d ≤ daysInMonth y mo) (hh : h ≤ 23) (hmi : mi ≤ 59)
    (hc : c ≠ 58) :
    pdt_parse_rfc3339_datetime
        (digits4 y ++ 45 :: (digits2 mo ++ 45 :: (digits2 d ++
          sep :: (digits2 h ++ 58 :: (digits2 mi ++ c :: rest)))))
        (digits4 y ++ 45 :: (digits2 mo ++ 45 :: (digits2 d ++
          sep :: (digits2 h ++ 58 :: (digits2 mi ++ c :: rest))))).length =
      (PDT_PARSE_ERROR, none) := by
  unfold pdt_parse_rfc3339_datetime
  rw [List.take_length]
  simp only [pdt_core,
    stepDate_ok y mo d (sep :: (digits2 h ++ 58 :: (digits2 mi ++ c :: rest)))
      hy (by omega) (by have := daysInMonth_le y mo; omega) (by omega) (by omega),
    stepTime, anyByteL_cons, readDigits2_eval h _ (by omega),
    if_neg (show ¬23 < h from by omega), expectL_cons,
    readDigits2_eval mi _ (by omega), if_neg (show ¬59 < mi from by omega),
    expectL_fail 58 c rest hc]

theorem c5part_second (y mo d sep h mi b1 b2 : Nat) (rest : List Nat)
    (hy : y ≤ 9999) (hmo : 1 ≤ mo ∧ mo ≤ 12)
    (hd : 1 ≤ d ∧ d ≤ daysInMonth y mo) (hh : h ≤ 23) (hmi : mi ≤ 59)
    (h2 : ¬(isDigitB b1 = true ∧ isDigitB b2 = true)) :
    pdt_parse_rfc3339_datetime
        (digits4 y ++ 45 :: (digits2 mo ++ 45 :: (digits2 d ++
          sep :: (digits2 h ++ 58 :: (digits2 mi ++ 58 :: b1 :: b2 :: rest)))))
        (digits4 y ++ 45 :: (digits2 mo ++ 45 :: (digits2 d ++
          sep :: (digits2 h ++ 58 ::
            (digits2 mi ++ 58 :: b1 :: b2 :: rest))))).length =
      (PDT_PARSE_ERROR, none) := by
  unfold pdt_parse_rfc3339_datetime
  rw [List.take_length]
  simp only [pdt_core,
    stepDate_ok y mo d
      (sep :: (digits2 h ++ 58 :: (digits2 mi ++ 58 :: b1 :: b2 :: rest)))
      hy (by omega) (by have := daysInMonth_le y mo; omega) (by omega) (by omega),
    stepTime, anyByteL_cons, readDigits2_eval h _ (by omega),
    if_neg (show ¬23 < h from by omega), expectL_cons,
    readDigits2_eval mi _ (by omega), if_neg (show ¬59 < mi from by omega),
    readDigitsL_fail2 0 b1 b2 rest h2]

theorem c5part_short (y mo d sep h mi sec k : Nat) (frac : Option (List Nat))
    (tz : TZ)
    (hy : y ≤ 9999) (hmo : 1 ≤ mo ∧ mo ≤ 12) (hd : 1 ≤ d ∧ d ≤ daysInMonth y mo)
    (hh : h ≤ 23) (hmi : mi ≤ 59) (hsec : sec ≤ 60) (hk : k < 19) :
    pdt_parse_rfc3339_datetime (render y mo d sep h mi sec frac tz) k =
      (PDT_PARSE_ERROR, none) := by
  unfold pdt_parse_rfc3339_datetime
  rw [render_take y mo d sep h mi sec frac tz k (by omega)]
  have hdate : stepDate (digits4 y ++ 45 :: (digits2 mo ++ 45 :: (digits2 d ++
      sep :: (digits2 h ++ 58 :: (digits2 mi ++ 58 :: digits2 sec))))) =
      .ok (y, mo, d, sep :: (digits2 h ++ 58 :: (digits2 mi ++ 58 :: digits2 sec))) :=
    stepDate_ok y mo d _ hy (by omega) (by have := daysInMonth_le y mo; omega) (by omega) (by omega)
  have htime0 := stepTime_ok sep h mi sec [] (by omega) (by omega) (by omega)
    (by omega) (by omega) (by omega)
  rw [List.append_nil] at htime0
  rw [show render19 y mo d sep h mi sec = digits4 y ++ 45 :: (digits2 mo ++
    45 :: (digits2 d ++ sep :: (digits2 h ++ 58 ::
      (digits2 mi ++ 58 :: digits2 sec)))) from rfl]
  simp only [pdt_core, stepDate_take _ y mo d _ k hdate]
  by_cases hk10 : k < 10
  · simp only [if_pos hk10]
  · simp only [if_neg hk10, stepTime_take _ h mi sec [] (k - 10) htime0]
    simp only [if_pos (show k - 10 < 9 from by omega)]

theorem msSpec_eq_cases (frac : Option (List Nat)) :
    msSpec frac = (match frac with
      | none => 0
      | some ds =>
          if 3 ≤ ds.length then (ds.take 3).foldl (fun a x => a * 10 + x) 0
          else (ds.foldl (fun a x => a * 10 + x) 0) * 10 ^ (3 - ds.length)) := by
  cases frac with
  | none => rfl
  | some ds =>
      by_cases h3 : 3 ≤ ds.length
      · simp [msSpec, h3, List.length_take, Nat.min_eq_left h3]
      · have hle : ds.length ≤ 3 := by omega
        have hts : ds.take 3 = ds := List.take_of_length_le hle
        simp [msSpec, h3, hts]

theorem isLeapYear_iff (y : Nat) :
    isLeapYear y = true ↔ (y % 4 = 0 ∧ (y % 100 ≠ 0 ∨ y % 400 = 0)) := by
  simp [isLeapYear]

theorem not_viol_of_valid (y mo d h mi sec : Nat) (frac : Option (List Nat))
    (tz : TZ) (hmo1 : 1 ≤ mo) (hmo2 : mo ≤ 12) (hd1 : 1 ≤ d)
    (hd2 : d ≤ daysInMonth y mo) (hh : h ≤ 23) (hmi : mi ≤ 59) (hsec : sec ≤ 60)
    (hfrac : ∀ ds, frac = some ds → ds ≠ [])
    (hoff : ∀ sgn oh om, tz = .offset sgn oh om → oh ≤ 23 ∧ om ≤ 59) :
    ¬((mo = 0 ∨ 12 < mo) ∨ (d = 0 ∨ daysInMonth y mo < d) ∨ 23 < h ∨ 59 < mi ∨
      60 < sec ∨ frac = some [] ∨ tzBadB tz = true) := by
  intro hcon
  rcases hcon with hc | hc | hc | hc | hc | hc | hc
  · omega
  · omega
  · omega
  · omega
  · omega
  · exact hfrac [] hc rfl
  · rw [tzBadB_false_of_valid tz hoff] at hc
    simp at hc

/-- C1: every well-shaped RFC3339-like byte sequence (4-digit year, `-`,
month 01-12, `-`, valid day, one separator byte, hour 00-23, `:`, minute
00-59, `:`, second 00-60, optional nonempty fraction, optional valid
timezone designator) parses with PDT_SUCCESS and each field equal to its
digit group; in particular the literal input
"2020-01-02a03:04:05.67891011Z" of length 29 yields year 2020, month 1,
day 2, hour 3, minute 4, second 5, millisecond 678. -/
theorem C1_valid_inputs_parse_exactly :
    (∀ (y mo d sep h mi sec : Nat) (frac : Option (List Nat)) (tz : TZ),
      y ≤ 9999 → 1 ≤ mo → mo ≤ 12 → 1 ≤ d → d ≤ daysInMonth y mo →
      h ≤ 23 → mi ≤ 59 → sec ≤ 60 →
      (∀ ds, frac = some ds → ds ≠ [] ∧ ∀ x ∈ ds, x ≤ 9) →
      (∀ sgn oh om, tz = TZ.offset sgn oh om → oh ≤ 23 ∧ om ≤ 59) →
      pdt_parse_rfc3339_datetime (render y mo d sep h mi sec frac tz)
          (render y mo d sep h mi sec frac tz).length =
        (PDT_SUCCESS, some ⟨(y : Int), (mo : Int), (d : Int), (h : Int),
          (mi : Int), (sec : Int), (msSpec frac : Int)⟩)) ∧
    pdt_parse_rfc3339_datetime
        [50, 48, 50, 48, 45, 48, 49, 45, 48, 50, 97, 48, 51, 58, 48, 52, 58,
         48, 53, 46, 54, 55, 56, 57, 49, 48, 49, 49, 90] 29 =
      (PDT_SUCCESS, some ⟨2020, 1, 2, 3, 4, 5, 678⟩) := by
  constructor
  · intro y mo d sep h mi sec frac tz hy hmo1 hmo2 hd1 hd2 hh hmi hsec hfrac hoff
    have hoff99 : ∀ sgn oh om, tz = TZ.offset sgn oh om → oh ≤ 99 ∧ om ≤ 99 := by
      intro sgn oh om hcon
      obtain ⟨a, b⟩ := hoff sgn oh om hcon
      exact ⟨by omega, by omega⟩
    rw [pdt_parse_render y mo d sep h mi sec frac tz hy (by omega)
      (by have := daysInMonth_le y mo; omega) (by omega) (by omega) (by omega)
      (fun ds hds => (hfrac ds hds).2) hoff99]
    rw [if_neg (not_viol_of_valid y mo d h mi sec frac tz hmo1 hmo2 hd1 hd2
      hh hmi hsec (fun ds hds => (hfrac ds hds).1) hoff)]
  · decide

/-- Witness for C1: the universal statement applied at the literal example. -/
theorem C1_valid_inputs_parse_exactly_witness :
    pdt_parse_rfc3339_datetime
        (render 2020 1 2 97 3 4 5 (some [6, 7, 8, 9, 1, 0, 1, 1]) TZ.zulu)
        (render 2020 1 2 97 3 4 5 (some [6, 7, 8, 9, 1, 0, 1, 1]) TZ.zulu).length =
      (PDT_SUCCESS, some ⟨2020, 1, 2, 3, 4, 5, 678⟩) := by
  have h := C1_valid_inputs_parse_exactly.1 2020 1 2 97 3 4 5
    (some [6, 7, 8, 9, 1, 0, 1, 1]) TZ.zulu (by omega) (by omega) (by omega)
    (by omega) (by decide) (by omega) (by omega) (by omega)
    (by intro ds hds; injection hds with h2; subst h2
        exact ⟨by decide, by decide⟩)
    (by intro sgn oh om hcon; cases hcon)
  rw [h]
  decide

/-- C2: for every successfully parsed well-shaped input the millisecond field
is the truncate-or-pad value of the optional fractional digit run: absent
gives 0, a run of length at least 3 gives the value of its first three
digits, and a run of length 1 or 2 gives its value right-padded with
trailing zeros to three digits. -/
theorem C2_millisecond_truncation :
    ∀ (y mo d sep h mi sec : Nat) (frac : Option (List Nat)) (tz : TZ),
      y ≤ 9999 → 1 ≤ mo → mo ≤ 12 → 1 ≤ d → d ≤ daysInMonth y mo →
      h ≤ 23 → mi ≤ 59 → sec ≤ 60 →
      (∀ ds, frac = some ds → ds ≠ [] ∧ ∀ x ∈ ds, x ≤ 9) →
      (∀ sgn oh om, tz = TZ.offset sgn oh om → oh ≤ 23 ∧ om ≤ 59) →
      pdt_parse_rfc3339_datetime (render y mo d sep h mi sec frac tz)
          (render y mo d sep h mi sec frac tz).length =
        (PDT_SUCCESS, some ⟨(y : Int), (mo : Int), (d : Int), (h : Int),
          (mi : Int), (sec : Int),
          (((match frac with
            | none => 0
            | some ds =>
                if 3 ≤ ds.length then
                  (ds.take 3).foldl (fun a x => a * 10 + x) 0
                else
                  (ds.foldl (fun a x => a * 10 + x) 0) *
                    10 ^ (3 - ds.length)) : Nat) : Int)⟩) := by
  intro y mo d sep h mi sec frac tz hy hmo1 hmo2 hd1 hd2 hh hmi hsec hfrac hoff
  rw [← msSpec_eq_cases frac]
  have hoff99 : ∀ sgn oh om, tz = TZ.offset sgn oh om → oh ≤ 99 ∧ om ≤ 99 := by
    intro sgn oh om hcon
    obtain ⟨a, b⟩ := hoff sgn oh om hcon
    exact ⟨by omega, by omega⟩
  rw [pdt_parse_render y mo d sep h mi sec frac tz hy (by omega)
    (by have := daysInMonth_le y mo; omega) (by omega) (by omega) (by omega)
    (fun ds hds => (hfrac ds hds).2) hoff99]
  rw [if_neg (not_viol_of_valid y mo d h mi sec frac tz hmo1 hmo2 hd1 hd2
    hh hmi hsec (fun ds hds => (hfrac ds hds).1) hoff)]

/-- Witness for C2: a one-digit run "6" yields millisecond 600. -/
theorem C2_millisecond_truncation_witness :
    pdt_parse_rfc3339_datetime (render 2020 1 2 97 3 4 5 (some [6]) TZ.absent)
        (render 2020 1 2 97 3 4 5 (some [6]) TZ.absent).length =
      (PDT_SUCCESS, some ⟨2020, 1, 2, 3, 4, 5, 600⟩) := by
  have h := C2_millisecond_truncation 2020 1 2 97 3 4 5 (some [6]) TZ.absent
    (by omega) (by omega) (by omega) (by omega) (by decide) (by omega)
    (by omega) (by omega)
    (by intro ds hds; injection hds with h2; subst h2
        exact ⟨by decide, by decide⟩)
    (by intro sgn oh om hcon; cases hcon)
  rw [h]
  decide

/-- C3: the day group is validated against the month length under the
Gregorian leap-year rule (divisible by 4, except centuries not divisible by
400): a day-29 February input parses successfully exactly for leap years,
and the four literal scenario inputs for 2020, 2021, 1900 and 2000 behave
accordingly. -/
theorem C3_leap_year_day_validation :
    (∀ y : Nat, y ≤ 9999 →
      pdt_parse_rfc3339_datetime (render y 2 29 84 0 0 0 none TZ.zulu)
          (render y 2 29 84 0 0 0 none TZ.zulu).length =
        (if y % 4 = 0 ∧ (y % 100 ≠ 0 ∨ y % 400 = 0)
         then (PDT_SUCCESS, some ⟨(y : Int), 2, 29, 0, 0, 0, 0⟩)
         else (PDT_MALFORMED_STR, none))) ∧
    pdt_parse_rfc3339_datetime
        [50, 48, 50, 48, 45, 48, 50, 45, 50, 57, 84, 48, 48, 58, 48, 48, 58,
         48, 48, 90] 20 = (PDT_SUCCESS, some ⟨2020, 2, 29, 0, 0, 0, 0⟩) ∧
    pdt_parse_rfc3339_datetime
        [50, 48, 50, 49, 45, 48, 50, 45, 50, 57, 84, 48, 48, 58, 48, 48, 58,
         48, 48, 90] 20 = (PDT_MALFORMED_STR, none) ∧
    pdt_parse_rfc3339_datetime
        [49, 57, 48, 48, 45, 48, 50, 45, 50, 57, 84, 48, 48, 58, 48, 48, 58,
         48, 48, 90] 20 = (PDT_MALFORMED_STR, none) ∧
    pdt_parse_rfc3339_datetime
        [50, 48, 48, 48, 45, 48, 50, 45, 50, 57, 84, 48, 48, 58, 48, 48, 58,
         48, 48, 90] 20 = (PDT_SUCCESS, some ⟨2000, 2, 29, 0, 0, 0, 0⟩) := by
  refine ⟨?_, by decide, by decide, by decide, by decide⟩
  intro y hy
  rw [pdt_parse_render y 2 29 84 0 0 0 none TZ.zulu hy (by omega) (by omega)
    (by omega) (by omega) (by omega) (by intro ds hds; cases hds)
    (by intro sgn oh om hcon; cases hcon)]
  by_cases hleap : y % 4 = 0 ∧ (y % 100 ≠ 0 ∨ y % 400 = 0)
  · have hl : isLeapYear y = true := (isLeapYear_iff y).mpr hleap
    have hdim : daysInMonth y 2 = 29 := by simp [daysInMonth, hl]
    have hcnot : ¬((2 = 0 ∨ 12 < 2) ∨ (29 = 0 ∨ daysInMonth y 2 < 29) ∨
        23 < 0 ∨ 59 < 0 ∨ 60 < 0 ∨ (none : Option (List Nat)) = some [] ∨
        tzBadB TZ.zulu = true) := by
      rw [hdim]
      rintro (hc | hc | hc | hc | hc | hc | hc)
      · omega
      · omega
      · omega
      · omega
      · omega
      · exact Option.noConfusion hc
      · simp [tzBadB] at hc
    rw [if_neg hcnot, if_pos hleap]
    norm_num [msSpec]
  · have hl : isLeapYear y = false := by
      cases hli : isLeapYear y
      · rfl
      · exact absurd ((isLeapYear_iff y).mp hli) hleap
    have hdim : daysInMonth y 2 = 28 := by simp [daysInMonth, hl]
    rw [if_neg hleap]
    rw [if_pos (show (2 = 0 ∨ 12 < 2) ∨ (29 = 0 ∨ daysInMonth y 2 < 29) ∨
      23 < 0 ∨ 59 < 0 ∨ 60 < 0 ∨ (none : Option (List Nat)) = some [] ∨
      tzBadB TZ.zulu = true from by rw [hdim]; exact Or.inr (Or.inl
        (Or.inr (by omega))))]

/-- Witness for C3: the universal statement applied at year 2024. -/
theorem C3_leap_year_day_validation_witness :
    pdt_parse_rfc3339_datetime (render 2024 2 29 84 0 0 0 none TZ.zulu)
        (render 2024 2 29 84 0 0 0 none TZ.zulu).length =
      (PDT_SUCCESS, some ⟨2024, 2, 29, 0, 0, 0, 0⟩) := by
  have h := C3_leap_year_day_validation.1 2024 (by omega)
  rw [h]
  decide

/-- C4: a well-shaped input with any semantically out-of-range group (month
00 or above 12, day 0 or exceeding the month length, hour above 23, minute
above 59, second above 60, an empty fractional digit run after `.`, or an
out-of-range signed offset) is rejected with PDT_MALFORMED_STR. -/
theorem C4_semantic_range_rejection :
    ∀ (y mo d sep h mi sec : Nat) (frac : Option (List Nat)) (tz : TZ),
      y ≤ 9999 → mo ≤ 99 → d ≤ 99 → h ≤ 99 → mi ≤ 99 → sec ≤ 99 →
      (∀ ds, frac = some ds → ∀ x ∈ ds, x ≤ 9) →
      (∀ sgn oh om, tz = TZ.offset sgn oh om → oh ≤ 99 ∧ om ≤ 99) →
      ((mo = 0 ∨ 12 < mo) ∨ (d = 0 ∨ daysInMonth y mo < d) ∨ 23 < h ∨
        59 < mi ∨ 60 < sec ∨ frac = some [] ∨ tzBadB tz = true) →
      pdt_parse_rfc3339_datetime (render y mo d sep h mi sec frac tz)
          (render y mo d sep h mi sec frac tz).length =
        (PDT_MALFORMED_STR, none) := by
  intro y mo d sep h mi sec frac tz hy hmo hd hh hmi hsec hfrac hoff hviol
  rw [pdt_parse_render y mo d sep h mi sec frac tz hy hmo hd hh hmi hsec
    hfrac hoff, if_pos hviol]

/-- Witness for C4: month 13 is rejected as malformed. -/
theorem C4_semantic_range_rejection_witness :
    pdt_parse_rfc3339_datetime (render 2020 13 1 84 0 0 0 none TZ.absent)
        (render 2020 13 1 84 0 0 0 none TZ.absent).length =
      (PDT_MALFORMED_STR, none) :=
  C4_semantic_range_rejection 2020 13 1 84 0 0 0 none TZ.absent
    (by omega) (by omega) (by omega) (by omega) (by omega) (by omega)
    (by intro ds hds; cases hds)
    (by intro sgn oh om hcon; cases hcon)
    (Or.inl (Or.inr (by omega)))

/-- C5: structurally malformed inputs are rejected with PDT_PARSE_ERROR: a
non-digit byte in a digit position of the group the walk has reached, a
missing `-` or `:` literal at its expected position, or a declared length
shorter than the 19 mandatory bytes. -/
theorem C5_structural_rejection :
    (∀ (b1 b2 b3 b4 : Nat) (rest : List Nat),
      ¬(isDigitB b1 = true ∧ isDigitB b2 = true ∧ isDigitB b3 = true ∧
        isDigitB b4 = true) →
      pdt_parse_rfc3339_datetime (b1 :: b2 :: b3 :: b4 :: rest)
        (b1 :: b2 :: b3 :: b4 :: rest).length = (PDT_PARSE_ERROR, none)) ∧
    (∀ (y c : Nat) (rest : List Nat), y ≤ 9999 → c ≠ 45 →
      pdt_parse_rfc3339_datetime (digits4 y ++ c :: rest)
        (digits4 y ++ c :: rest).length = (PDT_PARSE_ERROR, none)) ∧
    (∀ (y b1 b2 : Nat) (rest : List Nat), y ≤ 9999 →
      ¬(isDigitB b1 = true ∧ isDigitB b2 = true) →
      pdt_parse_rfc3339_datetime (digits4 y ++ 45 :: b1 :: b2 :: rest)
        (digits4 y ++ 45 :: b1 :: b2 :: rest).length =
        (PDT_PARSE_ERROR, none)) ∧
    (∀ (y mo c : Nat) (rest : List Nat), y ≤ 9999 → 1 ≤ mo → mo ≤ 12 →
      c ≠ 45 →
      pdt_parse_rfc3339_datetime (digits4 y ++ 45 :: (digits2 mo ++ c :: rest))
        (digits4 y ++ 45 :: (digits2 mo ++ c :: rest)).length =
        (PDT_PARSE_ERROR, none)) ∧
    (∀ (y mo b1 b2 : Nat) (rest : List Nat), y ≤ 9999 → 1 ≤ mo → mo ≤ 12 →
      ¬(isDigitB b1 = true ∧ isDigitB b2 = true) →
      pdt_parse_rfc3339_datetime
        (digits4 y ++ 45 :: (digits2 mo ++ 45 :: b1 :: b2 :: rest))
        (digits4 y ++ 45 :: (digits2 mo ++ 45 :: b1 :: b2 :: rest)).length =
        (PDT_PARSE_ERROR, none)) ∧
    (∀ (y mo d sep b1 b2 : Nat) (rest : List Nat), y ≤ 9999 → 1 ≤ mo →
      mo ≤ 12 → 1 ≤ d → d ≤ daysInMonth y mo →
      ¬(isDigitB b1 = true ∧ isDigitB b2 = true) →
      pdt_parse_rfc3339_datetime
        (digits4 y ++ 45 :: (digits2 mo ++ 45 :: (digits2 d ++
          sep :: b1 :: b2 :: rest)))
        (digits4 y ++ 45 :: (digits2 mo ++ 45 :: (digits2 d ++
          sep :: b1 :: b2 :: rest))).length = (PDT_PARSE_ERROR, none)) ∧
    (∀ (y mo d sep h c : Nat) (rest : List Nat), y ≤ 9999 → 1 ≤ mo →
      mo ≤ 12 → 1 ≤ d → d ≤ daysInMonth y mo → h ≤ 23 → c ≠ 58 →
      pdt_parse_rfc3339_datetime
        (digits4 y ++ 45 :: (digits2 mo ++ 45 :: (digits2 d ++
          sep :: (digits2 h ++ c :: rest))))
        (digits4 y ++ 45 :: (digits2 mo ++ 45 :: (digits2 d ++
          sep :: (digits2 h ++ c :: rest)))).length =
        (PDT_PARSE_ERROR, none)) ∧
    (∀ (y mo d sep h b1 b2 : Nat) (rest : List Nat), y ≤ 9999 → 1 ≤ mo →
      mo ≤ 12 → 1 ≤ d → d ≤ daysInMonth y mo → h ≤ 23 →
      ¬(isDigitB b1 = true ∧ isDigitB b2 = true) →
      pdt_parse_rfc3339_datetime
        (digits4 y ++ 45 :: (digits2 mo ++ 45 :: (digits2 d ++
          sep :: (digits2 h ++ 58 :: b1 :: b2 :: rest))))
        (digits4 y ++ 45 :: (digits2 mo ++ 45 :: (digits2 d ++
          sep :: (digits2 h ++ 58 :: b1 :: b2 :: rest)))).length =
        (PDT_PARSE_ERROR, none)) ∧
    (∀ (y mo d sep h mi c : Nat) (rest : List Nat), y ≤ 9999 → 1 ≤ mo →
      mo ≤ 12 → 1 ≤ d → d ≤ daysInMonth y mo → h ≤ 23 → mi ≤ 59 → c ≠ 58 →
      pdt_parse_rfc3339_datetime
        (digits4 y ++ 45 :: (digits2 mo ++ 45 :: (digits2 d ++
          sep :: (digits2 h ++ 58 :: (digits2 mi ++ c :: rest)))))
        (digits4 y ++ 45 :: (digits2 mo ++ 45 :: (digits2 d ++
          sep :: (digits2 h ++ 58 :: (digits2 mi ++ c :: rest))))).length =
        (PDT_PARSE_ERROR, none)) ∧
    (∀ (y mo d sep h mi b1 b2 : Nat) (rest : List Nat), y ≤ 9999 → 1 ≤ mo →
      mo ≤ 12 → 1 ≤ d → d ≤ daysInMonth y mo → h ≤ 23 → mi ≤ 59 →
      ¬(isDigitB b1 = true ∧ isDigitB b2 = true) →
      pdt_parse_rfc3339_datetime
        (digits4 y ++ 45 :: (digits2 mo ++ 45 :: (digits2 d ++
          sep :: (digits2 h ++ 58 :: (digits2 mi ++ 58 :: b1 :: b2 :: rest)))))
        (digits4 y ++ 45 :: (digits2 mo ++ 45 :: (digits2 d ++
          sep :: (digits2 h ++ 58 ::
            (digits2 mi ++ 58 :: b1 :: b2 :: rest))))).length =
        (PDT_PARSE_ERROR, none)) ∧
    (∀ (y mo d sep h mi sec k : Nat) (frac : Option (List Nat)) (tz : TZ),
      y ≤ 9999 → 1 ≤ mo → mo ≤ 12 → 1 ≤ d → d ≤ daysInMonth y mo → h ≤ 23 →
      mi ≤ 59 → sec ≤ 60 → k < 19 →
      pdt_parse_rfc3339_datetime (render y mo d sep h mi sec frac tz) k =
        (PDT_PARSE_ERROR, none)) := by
  refine ⟨c5part_year,
    fun y c rest hy hc => c5part_dash1 y c rest hy hc,
    fun y b1 b2 rest hy h => c5part_month y b1 b2 rest hy h,
    fun y mo c rest hy h1 h2 hc => c5part_dash2 y mo c rest hy ⟨h1, h2⟩ hc,
    fun y mo b1 b2 rest hy h1 h2 h => c5part_day y mo b1 b2 rest hy ⟨h1, h2⟩ h,
    fun y mo d sep b1 b2 rest hy h1 h2 h3 h4 h =>
      c5part_hour y mo d sep b1 b2 rest hy ⟨h1, h2⟩ ⟨h3, h4⟩ h,
    fun y mo d sep h c rest hy h1 h2 h3 h4 hh hc =>
      c5part_colon1 y mo d sep h c rest hy ⟨h1, h2⟩ ⟨h3, h4⟩ hh hc,
    fun y mo d sep h b1 b2 rest hy h1 h2 h3 h4 hh hb =>
      c5part_minute y mo d sep h b1 b2 rest hy ⟨h1, h2⟩ ⟨h3, h4⟩ hh hb,
    fun y mo d sep h mi c rest hy h1 h2 h3 h4 hh hmi hc =>
      c5part_colon2 y mo d sep h mi c rest hy ⟨h1, h2⟩ ⟨h3, h4⟩ hh hmi hc,
    fun y mo d sep h mi b1 b2 rest hy h1 h2 h3 h4 hh hmi hb =>
      c5part_second y mo d sep h mi b1 b2 rest hy ⟨h1, h2⟩ ⟨h3, h4⟩ hh hmi hb,
    fun y mo d sep h mi sec k frac tz hy h1 h2 h3 h4 hh hmi hsec hk =>
      c5part_short y mo d sep h mi sec k frac tz hy ⟨h1, h2⟩ ⟨h3, h4⟩ hh hmi
        hsec hk⟩

/-- Witness for C5: the truncated input "2020-01-02a03:04:0" of declared
length 18 is rejected with a parse error. -/
theorem C5_structural_rejection_witness :
    pdt_parse_rfc3339_datetime (render 2020 1 2 97 3 4 5 none TZ.absent) 18 =
      (PDT_PARSE_ERROR, none) := by
  exact C5_structural_rejection.2.2.2.2.2.2.2.2.2.2 2020 1 2 97 3 4 5 18
    none TZ.absent (by omega) (by omega) (by omega) (by omega) (by decide)
    (by omega) (by omega) (by omega) (by omega)

/-- C6: the timezone designator is validated for syntax and range only and
then discarded: appending any valid designator (the literal Z or an
in-range signed offset) to an input the parser consumed completely without
a designator returns PDT_SUCCESS with the identical seven output fields. -/
theorem C6_designator_discarded :
    ∀ (xs : List Nat) (dt : pdt_precise_local_date_time) (tz : TZ),
      pdt_core xs = .ok (dt, false, []) →
      (∀ sgn oh om, tz = TZ.offset sgn oh om → oh ≤ 23 ∧ om ≤ 59) →
      pdt_parse_rfc3339_datetime (xs ++ tzBytes tz)
          (xs.length + (tzBytes tz).length) = (PDT_SUCCESS, some dt) := by
  intro xs dt tz hcore hoff
  have h := pdt_core_append_tz xs dt tz hcore hoff
  unfold pdt_parse_rfc3339_datetime
  rw [show xs.length + (tzBytes tz).length = (xs ++ tzBytes tz).length from
    (List.length_append xs (tzBytes tz)).symm, List.take_length, h]

/-- Witness for C6: appending the designator "+01:30" to the designator-free
input "2020-01-02a03:04:05" leaves every output field unchanged. -/
theorem C6_designator_discarded_witness :
    pdt_parse_rfc3339_datetime
        ([50, 48, 50, 48, 45, 48, 49, 45, 48, 50, 97, 48, 51, 58, 48, 52, 58,
          48, 53] ++ tzBytes (TZ.offset true 1 30))
        ([50, 48, 50, 48, 45, 48, 49, 45, 48, 50, 97, 48, 51, 58, 48, 52, 58,
          48, 53].length + (tzBytes (TZ.offset true 1 30)).length) =
      (PDT_SUCCESS, some ⟨2020, 1, 2, 3, 4, 5, 0⟩) := by
  exact C6_designator_discarded _ _ (TZ.offset true 1 30) (by rfl)
    (by intro sgn oh om hcon
        injection hcon with e1 e2 e3
        subst e2; subst e3
        exact ⟨by omega, by omega⟩)

/-- C7: the separator byte between the day and hour groups may be any byte
value whatsoever: parsing succeeds for every separator byte provided the
rest of the grammar is intact, and no output field depends on it. -/
theorem C7_separator_any_byte :
    ∀ (sep y mo d h mi sec : Nat) (frac : Option (List Nat)) (tz : TZ),
      y ≤ 9999 → 1 ≤ mo → mo ≤ 12 → 1 ≤ d → d ≤ daysInMonth y mo →
      h ≤ 23 → mi ≤ 59 → sec ≤ 60 →
      (∀ ds, frac = some ds → ds ≠ [] ∧ ∀ x ∈ ds, x ≤ 9) →
      (∀ sgn oh om, tz = TZ.offset sgn oh om → oh ≤ 23 ∧ om ≤ 59) →
      pdt_parse_rfc3339_datetime (render y mo d sep h mi sec frac tz)
          (render y mo d sep h mi sec frac tz).length =
        (PDT_SUCCESS, some ⟨(y : Int), (mo : Int), (d : Int), (h : Int),
          (mi : Int), (sec : Int), (msSpec frac : Int)⟩) := by
  intro sep y mo d h mi sec frac tz hy hmo1 hmo2 hd1 hd2 hh hmi hsec hfrac hoff
  have hoff99 : ∀ sgn oh om, tz = TZ.offset sgn oh om → oh ≤ 99 ∧ om ≤ 99 := by
    intro sgn oh om hcon
    obtain ⟨a, b⟩ := hoff sgn oh om hcon
    exact ⟨by omega, by omega⟩
  rw [pdt_parse_render y mo d sep h mi sec frac tz hy (by omega)
    (by have := daysInMonth_le y mo; omega) (by omega) (by omega) (by omega)
    (fun ds hds => (hfrac ds hds).2) hoff99]
  rw [if_neg (not_viol_of_valid y mo d h mi sec frac tz hmo1 hmo2 hd1 hd2
    hh hmi hsec (fun ds hds => (hfrac ds hds).1) hoff)]

/-- Witness for C7: the separator byte 97 ("a") is accepted. -/
theorem C7_separator_any_byte_witness :
    pdt_parse_rfc3339_datetime (render 2020 1 2 97 3 4 5 none TZ.absent)
        (render 2020 1 2 97 3 4 5 none TZ.absent).length =
      (PDT_SUCCESS, some ⟨2020, 1, 2, 3, 4, 5, 0⟩) := by
  have h := C7_separator_any_byte 97 2020 1 2 3 4 5 none TZ.absent
    (by omega) (by omega) (by omega) (by omega) (by decide) (by omega)
    (by omega) (by omega) (by intro ds hds; cases hds)
    (by intro sgn oh om hcon; cases hcon)
  rw [h]
  decide

/-- C8: the second group accepts the full range 00-60: a well-shaped input
with second value 60 parses with PDT_SUCCESS and the second field stores the
literal value 60 while every other field keeps its own group value. -/
theorem C8_leap_second_accepted :
    ∀ (y mo d sep h mi : Nat) (frac : Option (List Nat)) (tz : TZ),
      y ≤ 9999 → 1 ≤ mo → mo ≤ 12 → 1 ≤ d → d ≤ daysInMonth y mo →
      h ≤ 23 → mi ≤ 59 →
      (∀ ds, frac = some ds → ds ≠ [] ∧ ∀ x ∈ ds, x ≤ 9) →
      (∀ sgn oh om, tz = TZ.offset sgn oh om → oh ≤ 23 ∧ om ≤ 59) →
      pdt_parse_rfc3339_datetime (render y mo d sep h mi 60 frac tz)
          (render y mo d sep h mi 60 frac tz).length =
        (PDT_SUCCESS, some ⟨(y : Int), (mo : Int), (d : Int), (h : Int),
          (mi : Int), 60, (msSpec frac : Int)⟩) := by
  intro y mo d sep h mi frac tz hy hmo1 hmo2 hd1 hd2 hh hmi hfrac hoff
  have hoff99 : ∀ sgn oh om, tz = TZ.offset sgn oh om → oh ≤ 99 ∧ om ≤ 99 := by
    intro sgn oh om hcon
    obtain ⟨a, b⟩ := hoff sgn oh om hcon
    exact ⟨by omega, by omega⟩
  rw [pdt_parse_render y mo d sep h mi 60 frac tz hy (by omega)
    (by have := daysInMonth_le y mo; omega) (by omega) (by omega) (by omega)
    (fun ds hds => (hfrac ds hds).2) hoff99]
  rw [if_neg (not_viol_of_valid y mo d h mi 60 frac tz hmo1 hmo2 hd1 hd2
    hh hmi (by omega) (fun ds hds => (hfrac ds hds).1) hoff)]
  norm_num

/-- Witness for C8: the leap-second input "2020-01-02a03:04:60" parses with
second 60 and unchanged minute. -/
theorem C8_leap_second_accepted_witness :
    pdt_parse_rfc3339_datetime (render 2020 1 2 97 3 4 60 none TZ.absent)
        (render 2020 1 2 97 3 4 60 none TZ.absent).length =
      (PDT_SUCCESS, some ⟨2020, 1, 2, 3, 4, 60, 0⟩) := by
  have h := C8_leap_second_accepted 2020 1 2 97 3 4 none TZ.absent
    (by omega) (by omega) (by omega) (by omega) (by decide) (by omega)
    (by omega) (by intro ds hds; cases hds)
    (by intro sgn oh om hcon; cases hcon)
  rw [h]
  decide

/-- C9: the parser never reads past the declared length: two buffers that
agree on their first inp_len bytes give identical results (code and output
record). -/
theorem C9_reads_only_declared_length :
    ∀ (inp1 inp2 : List Nat) (inp_len : Nat),
      inp1.take inp_len = inp2.take inp_len →
      pdt_parse_rfc3339_datetime inp1 inp_len =
        pdt_parse_rfc3339_datetime inp2 inp_len := by
  intro inp1 inp2 inp_len h
  unfold pdt_parse_rfc3339_datetime
  rw [h]

/-- Witness for C9: two buffers differing only beyond the declared length 29
parse identically. -/
theorem C9_reads_only_declared_length_witness :
    pdt_parse_rfc3339_datetime
        ([50, 48, 50, 48, 45, 48, 49, 45, 48, 50, 97, 48, 51, 58, 48, 52, 58,
          48, 53, 46, 54, 55, 56, 57, 49, 48, 49, 49, 90] ++ [120]) 29 =
      pdt_parse_rfc3339_datetime
        ([50, 48, 50, 48, 45, 48, 49, 45, 48, 50, 97, 48, 51, 58, 48, 52, 58,
          48, 53, 46, 54, 55, 56, 57, 49, 48, 49, 49, 90] ++ [43]) 29 :=
  C9_reads_only_declared_length _ _ 29 (by decide)

/-- C10 counterexample: the 19-byte input "2020-01-02a03:04:05" parses
successfully, yet with the additional trailing bytes "+00:60" inside the
declared length the parse returns PDT_MALFORMED_STR instead of the claimed
unchanged PDT_SUCCESS, so trailing bytes are not unconditionally ignored. -/
theorem C10_trailing_bytes_counterexample :
    pdt_parse_rfc3339_datetime
        [50, 48, 50, 48, 45, 48, 49, 45, 48, 50, 97, 48, 51, 58, 48, 52, 58,
         48, 53] 19 = (PDT_SUCCESS, some ⟨2020, 1, 2, 3, 4, 5, 0⟩) ∧
    pdt_parse_rfc3339_datetime
        ([50, 48, 50, 48, 45, 48, 49, 45, 48, 50, 97, 48, 51, 58, 48, 52, 58,
          48, 53] ++ [43, 48, 48, 58, 54, 48]) (19 + 6) =
      (PDT_MALFORMED_STR, none) := by
  constructor
  · decide
  · decide

/-- C10 (amended): trailing bytes within the declared length after a fully
consumed parse are tolerated and ignored — unconditionally when a timezone
designator was consumed, and otherwise provided the first trailing byte is
not an ASCII digit and none of `+`, `-`, `.` (bytes that would extend the
fractional second or begin a timezone designator); the parse then returns
PDT_SUCCESS with the output fields of the prefix alone. -/
theorem C10_trailing_bytes_tolerated :
    ∀ (xs ys : List Nat) (dt : pdt_precise_local_date_time) (tzp : Bool),
      pdt_core xs = .ok (dt, tzp, []) →
      (tzp = false → ∀ c, ys.head? = some c →
        isDigitB c = false ∧ c ≠ 43 ∧ c ≠ 45 ∧ c ≠ 46) →
      pdt_parse_rfc3339_datetime (xs ++ ys) (xs.length + ys.length) =
        (PDT_SUCCESS, some dt) := by
  intro xs ys dt tzp hcore hcond
  obtain ⟨tzp2, r2, heq⟩ := pdt_core_append xs ys dt tzp hcore hcond
  unfold pdt_parse_rfc3339_datetime
  rw [show xs.length + ys.length = (xs ++ ys).length from
    (List.length_append xs ys).symm, List.take_length, heq]

/-- Witness for C10 (amended): trailing bytes "xyz" after the designator-free
input "2020-01-02a03:04:05" are ignored. -/
theorem C10_trailing_bytes_tolerated_witness :
    pdt_parse_rfc3339_datetime
        ([50, 48, 50, 48, 45, 48, 49, 45, 48, 50, 97, 48, 51, 58, 48, 52, 58,
          48, 53] ++ [120, 121, 122])
        ([50, 48, 50, 48, 45, 48, 49, 45, 48, 50, 97, 48, 51, 58, 48, 52, 58,
          48, 53].length + [120, 121, 122].length) =
      (PDT_SUCCESS, some ⟨2020, 1, 2, 3, 4, 5, 0⟩) := by
  exact C10_trailing_bytes_tolerated _ _ _ false (by rfl)
    (by intro _ c hc
        injection hc with e1
        subst e1
        exact ⟨by decide, by decide, by decide, by decide⟩)
